import Mathlib

/-!
Verification of the itinerary single-page application (`src/gemini/script.js`).

The script renders a static travel itinerary: city tabs, a per-day accordion
schedule, a details modal, and a Leaflet map with per-event markers.  This
development shallowly embeds the script's data model and its operations
(`fetchItineraryData`, `populateCities`, `showCity`, `setupMap`,
`updateActiveTab`, `showModal`, the details-button handler) as pure Lean
functions over an explicit application state, and proves the specification's
claims about them.

JavaScript builtins used by the script are modelled as follows.
`JSON.stringify` / `JSON.parse` are modelled by `stringifyJson` / `parseJson`
over an inductive `Json` value type; numeric leaves are modelled as integers
(IEEE-754 float formatting is outside the embedding).  The browser's
HTML-attribute character-reference decoding (what `getAttribute` returns for
the markup the script builds with `innerHTML`) is modelled by `htmlAttrDecode`,
covering the five predefined named references; the script's own escaping step
(`.replace(/'/g, "&apos;")`) is `replaceApos`.  JavaScript object key/value
collections (`itineraryData.cities`, `city.schedule`, the `markers` cache) are
modelled as insertion-ordered association lists, with `assocLookup` for
property reads and `assocSet` for property writes.
-/

/-! ## JSON values

`Json` mirrors the shape of the values the script passes to `JSON.stringify`
and receives from `JSON.parse`.  Arrays and objects are represented with
dedicated list types (`JItems`, `JProps`) so that equality is derivable;
`JProps` keeps fields in insertion order, as JavaScript objects do for
string keys. -/

mutual
inductive Json where
  | null
  | bool (b : Bool)
  | num (n : Int)
  | str (s : String)
  | arr (elems : JItems)
  | obj (fields : JProps)
deriving Repr, DecidableEq
inductive JItems where
  | nil
  | cons (hd : Json) (tl : JItems)
deriving Repr, DecidableEq
inductive JProps where
  | nil
  | cons (key : String) (val : Json) (tl : JProps)
deriving Repr, DecidableEq
end

/-- JavaScript truthiness of a `Json` value (`if (value)`): `null`, `false`,
`0` and the empty string are falsy; every other value, including any array or
object, is truthy. -/
def Json.truthy : Json → Bool
  | .null => false
  | .bool b => b
  | .num n => !(n = 0)
  | .str s => !(s = "")
  | .arr _ => true
  | .obj _ => true

/-- Property names of an object's field list, in declaration order. -/
def JProps.keys : JProps → List String
  | .nil => []
  | .cons k _ tl => k :: tl.keys

/-- Field list as an ordinary association list, in declaration order. -/
def JProps.toList : JProps → List (String × Json)
  | .nil => []
  | .cons k v tl => (k, v) :: tl.toList

/-- Array elements as an ordinary list, in order. -/
def JItems.toList : JItems → List Json
  | .nil => []
  | .cons x tl => x :: tl.toList

/-- Property read `obj[k]` on a field list: first field with the given name,
`none` when absent (JavaScript `undefined`). -/
def JProps.propGet : JProps → String → Option Json
  | .nil, _ => none
  | .cons k v tl, k2 => if k = k2 then some v else tl.propGet k2

mutual
/-- Every object reachable inside the value declares each property name at
most once.  JavaScript objects satisfy this by construction, so it is the
well-formedness condition under which `Json` values model script values. -/
def Json.wfKeys : Json → Bool
  | .null => true
  | .bool _ => true
  | .num _ => true
  | .str _ => true
  | .arr xs => xs.wfItems
  | .obj fs => fs.distinctKeys && fs.wfProps
def JItems.wfItems : JItems → Bool
  | .nil => true
  | .cons x tl => x.wfKeys && tl.wfItems
def JProps.wfProps : JProps → Bool
  | .nil => true
  | .cons _ v tl => v.wfKeys && tl.wfProps
def JProps.distinctKeys : JProps → Bool
  | .nil => true
  | .cons k _ tl => !(tl.keys.contains k) && tl.distinctKeys
end

/-! ## Decimal numerals

`JSON.stringify` prints the script's (integer-valued) numbers in plain
decimal; these helpers print and evaluate such numerals.  `natDigitsF`
recurses on an explicit fuel argument so that it is structural (and hence
evaluates inside the kernel); `natChars n` supplies fuel `n + 1`, which the
lemmas below show is always enough. -/

/-- Decimal digit character for `n < 10`. -/
def digitChar10 (n : Nat) : Char := Char.ofNat (48 + n)

/-- Digits of `n`, most significant first, prepended to `acc`; `fuel` bounds
the recursion depth. -/
def natDigitsF : Nat → Nat → List Char → List Char
  | 0, _, acc => acc
  | f + 1, n, acc =>
      if n < 10 then digitChar10 n :: acc
      else natDigitsF f (n / 10) (digitChar10 (n % 10) :: acc)

/-- Decimal digit characters of `n`, most significant first. -/
def natChars (n : Nat) : List Char := natDigitsF (n + 1) n []

/-- Characters of an integer: optional sign, then decimal digits. -/
def intChars (i : Int) : List Char :=
  if i < 0 then '-' :: natChars i.natAbs else natChars i.natAbs

/-- Hexadecimal digit character for `n < 16` (lower case, as in the
`\u00XX` escapes `JSON.stringify` emits). -/
def hexDigitChar (n : Nat) : Char :=
  if n < 10 then Char.ofNat (48 + n) else Char.ofNat (87 + n)

/-! ## The `JSON.stringify` model -/

/-- One string character as `JSON.stringify` emits it inside a quoted string:
quote and backslash get a backslash escape, the five control characters with
short escapes use them, any other control character becomes `\u00XX`, and
everything else stands for itself. -/
def escapeJsonChar (c : Char) : List Char :=
  if c = '"' then ['\\', '"']
  else if c = '\\' then ['\\', '\\']
  else if c.toNat = 8 then ['\\', 'b']
  else if c.toNat = 9 then ['\\', 't']
  else if c.toNat = 10 then ['\\', 'n']
  else if c.toNat = 12 then ['\\', 'f']
  else if c.toNat = 13 then ['\\', 'r']
  else if c.toNat < 32 then
    ['\\', 'u', '0', '0', hexDigitChar (c.toNat / 16), hexDigitChar (c.toNat % 16)]
  else [c]

/-- Escaped body of a string literal. -/
def escapeChars : List Char → List Char
  | [] => []
  | c :: cs => escapeJsonChar c ++ escapeChars cs

/-- A quoted, escaped JSON string literal. -/
def quoteString (s : String) : List Char := '"' :: escapeChars s.data ++ ['"']

/-- Text of the null keyword. -/
def litNull : List Char := "null".data

/-- Text of the true keyword. -/
def litTrue : List Char := "true".data

/-- Text of the false keyword. -/
def litFalse : List Char := "false".data

mutual
/-- Characters `JSON.stringify` produces for a value (no whitespace, fields
in declaration order, numbers in decimal). -/
def stringifyVal : Json → List Char
  | .num n => intChars n
  | .str s => quoteString s
  | .bool b => if b then litTrue else litFalse
  | .null => litNull
  | .arr xs => '[' :: stringifyItems xs ++ [']']
  | .obj fs => '{' :: stringifyProps fs ++ ['}']
/-- Comma-separated renderings of array elements. -/
def stringifyItems : JItems → List Char
  | .nil => []
  | .cons x .nil => stringifyVal x
  | .cons x (.cons y tl) => stringifyVal x ++ ',' :: stringifyItems (.cons y tl)
/-- Comma-separated `"key":value` renderings of object fields. -/
def stringifyProps : JProps → List Char
  | .nil => []
  | .cons k v .nil => quoteString k ++ ':' :: stringifyVal v
  | .cons k v (.cons k2 v2 tl) =>
      quoteString k ++ ':' :: stringifyVal v ++ ',' :: stringifyProps (.cons k2 v2 tl)
end

/-- The script-facing `JSON.stringify` model. -/
def stringifyJson (j : Json) : String := ⟨stringifyVal j⟩

example : stringifyVal (Json.num (-20)) = ['-', '2', '0'] := by decide
example :
    stringifyVal (Json.obj (.cons "a" (Json.str "x") .nil))
      = '{' :: '"' :: 'a' :: '"' :: ':' :: '"' :: 'x' :: '"' :: ['}'] := by decide

/-! ## The `JSON.parse` model

A recursive-descent parser over character lists, structural on an explicit
fuel argument (the top level supplies input length plus one, which the
round-trip lemmas show suffices for everything `stringifyJson` can emit).
It follows the JSON grammar as `JSON.parse` accepts it — surrounding
whitespace, string escapes including `\uXXXX`, no leading zeros, no trailing
input — with one modelling restriction: numeric literals are integral
(no fraction or exponent parts), matching the integer-valued `Json.num`.
Duplicate keys inside one object literal resolve as JavaScript property
assignment does: the first occurrence keeps its position, the last one
supplies the value (`dedupProps`). -/

/-- Whitespace as the JSON grammar knows it. -/
def isWsChar (c : Char) : Bool := c = ' ' || c = '\t' || c = '\n' || c = '\r'

/-- Leading whitespace removed. -/
def dropWs : List Char → List Char
  | [] => []
  | c :: cs => if isWsChar c then dropWs cs else c :: cs

/-- Decimal digit test. -/
def isDigitChar (c : Char) : Bool := 48 ≤ c.toNat && c.toNat ≤ 57

/-- Longest digit prefix and the remainder. -/
def digitSpan : List Char → List Char × List Char
  | [] => ([], [])
  | c :: cs =>
      if isDigitChar c then
        let p := digitSpan cs
        (c :: p.1, p.2)
      else ([], c :: cs)

/-- Value of a digit string, most significant first. -/
def digitsVal (ds : List Char) : Nat := ds.foldl (fun a c => a * 10 + (c.toNat - 48)) 0

/-- Value of a hexadecimal digit character. -/
def hexDigitVal (c : Char) : Option Nat :=
  if 48 ≤ c.toNat && c.toNat ≤ 57 then some (c.toNat - 48)
  else if 97 ≤ c.toNat && c.toNat ≤ 102 then some (c.toNat - 87)
  else if 65 ≤ c.toNat && c.toNat ≤ 70 then some (c.toNat - 55)
  else none

/-- Character named by a single-letter string escape. -/
def unescapeJsonChar : Char → Option Char
  | '"' => some '"'
  | '\\' => some '\\'
  | '/' => some '/'
  | 'b' => some (Char.ofNat 8)
  | 't' => some (Char.ofNat 9)
  | 'n' => some (Char.ofNat 10)
  | 'f' => some (Char.ofNat 12)
  | 'r' => some (Char.ofNat 13)
  | _ => none

/-- Body of a string literal after its opening quote: characters up to the
closing quote, with escapes decoded; raw control characters are rejected,
as `JSON.parse` rejects them. -/
def parseStringBody : List Char → Option (List Char × List Char)
  | [] => none
  | c :: rest =>
      if c = '"' then some ([], rest)
      else if c = '\\' then
        match rest with
        | 'u' :: a :: b :: c2 :: d :: rest2 =>
            match hexDigitVal a, hexDigitVal b, hexDigitVal c2, hexDigitVal d with
            | some va, some vb, some vc, some vd =>
                (parseStringBody rest2).map
                  (fun p => (Char.ofNat (((va * 16 + vb) * 16 + vc) * 16 + vd) :: p.1, p.2))
            | _, _, _, _ => none
        | e :: rest2 =>
            match unescapeJsonChar e with
            | some ch => (parseStringBody rest2).map (fun p => (ch :: p.1, p.2))
            | none => none
        | [] => none
      else if c.toNat < 32 then none
      else (parseStringBody rest).map (fun p => (c :: p.1, p.2))

/-- Digit run as a number: nonempty, and no leading zero unless the numeral
is exactly `0`. -/
def parseNumChars (cs : List Char) : Option (Nat × List Char) :=
  match digitSpan cs with
  | ([], _) => none
  | (d :: ds, r) =>
      if d = '0' && !(ds = []) then none else some (digitsVal (d :: ds), r)

/-- Property write `obj[k] = v`: overwrites the value at an existing name in
place, appends a fresh name at the end. -/
def JProps.propSet : JProps → String → Json → JProps
  | .nil, k, v => .cons k v .nil
  | .cons k0 v0 tl, k, v =>
      if k0 = k then .cons k0 v tl else .cons k0 v0 (tl.propSet k v)

/-- Fields applied left to right as property writes, as building a
JavaScript object literal does. -/
def JProps.writeAll : JProps → JProps → JProps
  | acc, .nil => acc
  | acc, .cons k v tl => JProps.writeAll (acc.propSet k v) tl

/-- Duplicate-name resolution for an object literal's field list. -/
def dedupProps (fs : JProps) : JProps := JProps.writeAll .nil fs

mutual
/-- Parse one JSON value (leading whitespace allowed), returning it with the
unconsumed remainder. -/
def parseJVal : Nat → List Char → Option (Json × List Char)
  | 0, _ => none
  | f + 1, cs =>
      match dropWs cs with
      | 'n' :: 'u' :: 'l' :: 'l' :: r => some (.null, r)
      | 't' :: 'r' :: 'u' :: 'e' :: r => some (.bool true, r)
      | 'f' :: 'a' :: 'l' :: 's' :: 'e' :: r => some (.bool false, r)
      | '"' :: r => (parseStringBody r).map (fun p => (.str ⟨p.1⟩, p.2))
      | '[' :: r =>
          match dropWs r with
          | ']' :: r2 => some (.arr .nil, r2)
          | cs2 => (parseJItems f cs2).map (fun p => (.arr p.1, p.2))
      | '{' :: r =>
          match dropWs r with
          | '}' :: r2 => some (.obj .nil, r2)
          | cs2 => (parseJProps f cs2).map (fun p => (.obj (dedupProps p.1), p.2))
      | '-' :: r =>
          match parseNumChars r with
          | some (n, r2) => some (.num (-(n : Int)), r2)
          | none => none
      | c :: r =>
          if isDigitChar c then
            match parseNumChars (c :: r) with
            | some (n, r2) => some (.num (n : Int), r2)
            | none => none
          else none
      | [] => none
/-- Parse the elements of a nonempty array literal up to its `]`. -/
def parseJItems : Nat → List Char → Option (JItems × List Char)
  | 0, _ => none
  | f + 1, cs =>
      match parseJVal f cs with
      | none => none
      | some (v, r) =>
          match dropWs r with
          | ',' :: r2 => (parseJItems f r2).map (fun p => (.cons v p.1, p.2))
          | ']' :: r2 => some (.cons v .nil, r2)
          | _ => none
/-- Parse the fields of a nonempty object literal up to its `}`. -/
def parseJProps : Nat → List Char → Option (JProps × List Char)
  | 0, _ => none
  | f + 1, cs =>
      match dropWs cs with
      | '"' :: r =>
          match parseStringBody r with
          | none => none
          | some (k, r1) =>
              match dropWs r1 with
              | ':' :: r2 =>
                  match parseJVal f r2 with
                  | none => none
                  | some (v, r3) =>
                      match dropWs r3 with
                      | ',' :: r4 => (parseJProps f r4).map (fun p => (.cons ⟨k⟩ v p.1, p.2))
                      | '}' :: r4 => some (.cons ⟨k⟩ v .nil, r4)
                      | _ => none
              | _ => none
      | _ => none
end

/-- The script-facing `JSON.parse` model: a complete document, nothing but
whitespace after the value; `none` is a thrown `SyntaxError`. -/
def parseJson (s : String) : Option Json :=
  match parseJVal (s.data.length + 1) s.data with
  | some (j, r) => if dropWs r = [] then some j else none
  | none => none

example : parseJson "null" = some Json.null := by decide
example : parseJson " -20 " = some (Json.num (-20)) := by decide
example : parseJson "05" = none := by decide
example :
    parseJson (stringifyJson (Json.obj (.cons "a" (Json.str "x") .nil)))
      = some (Json.obj (.cons "a" (Json.str "x") .nil)) := by decide
example :
    parseJson (stringifyJson (Json.arr (.cons (Json.bool true) (.cons (Json.num 7) .nil))))
      = some (Json.arr (.cons (Json.bool true) (.cons (Json.num 7) .nil))) := by decide

/-! ## The markup attribute layer

`showCity` embeds each event's serialized details into the markup as
`data-details='…'`, first rewriting every apostrophe to `&apos;`
(`replaceApos`, the script's `.replace(/'/g, "&apos;")`).  The interaction
layer reads the attribute back with `getAttribute`, which returns the
attribute text with HTML character references decoded (`htmlAttrDecode`,
modelling the five predefined named references). -/

/-- The apostrophe character. -/
def aposChar : Char := Char.ofNat 39

/-- Every apostrophe rewritten to the character-reference text `&apos;`. -/
def replaceApos : List Char → List Char
  | [] => []
  | c :: cs =>
      if c = aposChar then '&' :: 'a' :: 'p' :: 'o' :: 's' :: ';' :: replaceApos cs
      else c :: replaceApos cs

/-- HTML attribute-value decoding as the browser applies it to markup set
through `innerHTML`: each predefined named character reference denotes its
character, any other text stands for itself. -/
def htmlAttrDecodeF : Nat → List Char → List Char
  | 0, cs => cs
  | _ + 1, [] => []
  | f + 1, c :: r =>
      if c = '&' then
        match r with
        | 'a' :: 'm' :: 'p' :: ';' :: r2 => '&' :: htmlAttrDecodeF f r2
        | 'l' :: 't' :: ';' :: r2 => '<' :: htmlAttrDecodeF f r2
        | 'g' :: 't' :: ';' :: r2 => '>' :: htmlAttrDecodeF f r2
        | 'q' :: 'u' :: 'o' :: 't' :: ';' :: r2 => '"' :: htmlAttrDecodeF f r2
        | 'a' :: 'p' :: 'o' :: 's' :: ';' :: r2 => aposChar :: htmlAttrDecodeF f r2
        | _ => '&' :: htmlAttrDecodeF f r
      else c :: htmlAttrDecodeF f r

/-- HTML attribute-value decoding of a whole text (fuel instantiated with the
text's length, enough for every input since each step consumes a character). -/
def htmlAttrDecode (cs : List Char) : List Char := htmlAttrDecodeF cs.length cs

/-- Serialization of a details payload exactly as `showCity` computes the
`data-details` attribute text. -/
def serializeDetails (d : Json) : String := ⟨replaceApos (stringifyVal d)⟩

/-- Retrieval of a details payload exactly as the details-button handler
performs it: `JSON.parse` applied to what `getAttribute` returns. -/
def retrieveDetails (attrText : String) : Option Json :=
  parseJson ⟨htmlAttrDecode attrText.data⟩

/-- Rewriting apostrophes never shortens a text. -/
theorem length_le_replaceApos (cs : List Char) :
    cs.length ≤ (replaceApos cs).length := by
  induction cs with
  | nil => simp [replaceApos]
  | cons c cs ih =>
      by_cases ha : c = aposChar
      · simp only [replaceApos, if_pos ha, List.length_cons]; omega
      · simp only [replaceApos, if_neg ha, List.length_cons]; omega

/-- Decoding undoes the apostrophe rewriting on ampersand-free text, for any
fuel covering the original text (decoding consumes at least one rewritten
character — hence one original character — per step). -/
theorem htmlAttrDecodeF_replaceApos (cs : List Char) :
    ∀ f : Nat, cs.length ≤ f → '&' ∉ cs →
      htmlAttrDecodeF f (replaceApos cs) = cs := by
  induction cs with
  | nil =>
      intro f _ _
      cases f <;> rfl
  | cons c cs ih =>
      intro f hf h
      have hc : c ≠ '&' := fun hc => h (hc ▸ List.mem_cons_self c cs)
      have htl : '&' ∉ cs := fun hm => h (List.mem_cons_of_mem c hm)
      simp only [List.length_cons] at hf
      cases f with
      | zero => omega
      | succ f =>
          have hlen : cs.length ≤ f := by omega
          by_cases ha : c = aposChar
          · subst ha
            simp only [replaceApos, if_pos rfl]
            show aposChar :: htmlAttrDecodeF f (replaceApos cs) = _
            rw [ih f hlen htl]
          · simp only [replaceApos, if_neg ha]
            simp only [htmlAttrDecodeF, if_neg hc]
            rw [ih f hlen htl]

/-- Decoding undoes the apostrophe rewriting on ampersand-free text. -/
theorem htmlAttrDecode_replaceApos (cs : List Char) (h : '&' ∉ cs) :
    htmlAttrDecode (replaceApos cs) = cs :=
  htmlAttrDecodeF_replaceApos cs (replaceApos cs).length (length_le_replaceApos cs) h

/-! ## Decimal numeral lemmas

The printer/parser inverse facts for the digit helpers: a printed numeral is
a nonempty all-digit run without a spurious leading zero, and evaluating it
recovers the number. -/

/-- Character facts for a single decimal digit. -/
theorem digitChar10_spec (k : Nat) (h : k < 10) :
    (digitChar10 k).toNat = 48 + k ∧ isDigitChar (digitChar10 k) = true := by
  interval_cases k <;> exact ⟨by decide, by decide⟩

/-- Only the digit `0` prints as the character `0`. -/
theorem digitChar10_eq_zero (k : Nat) (h : k < 10) : digitChar10 k = '0' ↔ k = 0 := by
  interval_cases k <;> decide

/-- Fuel beyond the number itself does not change the printed digits. -/
theorem natDigitsF_append (n : Nat) : ∀ f acc, n < f →
    natDigitsF f n acc = natChars n ++ acc := by
  induction n using Nat.strong_induction_on with
  | _ n ih =>
      intro f acc hf
      by_cases h10 : n < 10
      · cases f with
        | zero => omega
        | succ f =>
            simp only [natDigitsF, if_pos h10, natChars]
            simp
      · cases f with
        | zero => omega
        | succ f =>
            have hdiv : n / 10 < n := by omega
            have hdivf : n / 10 < f := by omega
            have hdivn : n / 10 < n := by omega
            simp only [natDigitsF, if_neg h10]
            rw [ih (n / 10) hdiv f _ hdivf]
            conv_rhs =>
              rw [natChars]
              rw [show natDigitsF (n + 1) n [] =
                    natDigitsF n (n / 10) [digitChar10 (n % 10)] from by
                  simp only [natDigitsF, if_neg h10]]
              rw [ih (n / 10) hdiv n _ (by omega)]
            simp

/-- One last-digit-first unfolding of the printed numeral. -/
theorem natChars_eq (n : Nat) :
    natChars n = (if n < 10 then [] else natChars (n / 10)) ++ [digitChar10 (n % 10)] := by
  by_cases h10 : n < 10
  · simp only [natChars, natDigitsF, if_pos h10, Nat.mod_eq_of_lt h10]
    simp
  · rw [if_neg h10]
    conv_lhs => rw [natChars]
    rw [show natDigitsF (n + 1) n [] = natDigitsF n (n / 10) [digitChar10 (n % 10)] from by
      simp only [natDigitsF, if_neg h10]]
    rw [natDigitsF_append (n / 10) n _ (by omega)]

/-- A printed numeral is never empty. -/
theorem natChars_ne_nil (n : Nat) : natChars n ≠ [] := by
  rw [natChars_eq]; simp

/-- Every character of a printed numeral is a digit. -/
theorem natChars_all_digits (n : Nat) : ∀ c ∈ natChars n, isDigitChar c = true := by
  induction n using Nat.strong_induction_on with
  | _ n ih =>
      rw [natChars_eq]
      intro c hc
      rcases List.mem_append.mp hc with hl | hr
      · by_cases h10 : n < 10
        · simp [if_pos h10] at hl
        · exact ih (n / 10) (by omega) c (by simpa [if_neg h10] using hl)
      · rw [List.mem_singleton] at hr
        subst hr
        exact (digitChar10_spec (n % 10) (Nat.mod_lt _ (by omega))).2

/-- A numeral of a positive number never starts with the character `0`. -/
theorem natChars_head_ne_zero (n : Nat) (hn : 1 ≤ n) :
    ∀ d ds, natChars n = d :: ds → d ≠ '0' := by
  induction n using Nat.strong_induction_on with
  | _ n ih =>
      intro d ds heq
      by_cases h10 : n < 10
      · rw [natChars_eq, if_pos h10] at heq
        simp only [List.nil_append, List.cons.injEq] at heq
        rw [← heq.1]
        have := (digitChar10_eq_zero (n % 10) (Nat.mod_lt _ (by omega)))
        intro hz
        have := this.mp hz
        omega
      · rw [natChars_eq, if_neg h10] at heq
        obtain ⟨e, es, hcons⟩ : ∃ e es, natChars (n / 10) = e :: es := by
          cases h : natChars (n / 10) with
          | nil => exact absurd h (natChars_ne_nil _)
          | cons e es => exact ⟨e, es, rfl⟩
        rw [hcons, List.cons_append, List.cons.injEq] at heq
        rw [← heq.1]
        exact ih (n / 10) (by omega) (by omega) e es hcons

/-- Evaluating a printed numeral recovers the number. -/
theorem digitsVal_natChars (n : Nat) : digitsVal (natChars n) = n := by
  induction n using Nat.strong_induction_on with
  | _ n ih =>
      rw [natChars_eq]
      by_cases h10 : n < 10
      · simp only [if_pos h10, List.nil_append, digitsVal, List.foldl_cons, List.foldl_nil]
        have := (digitChar10_spec (n % 10) (Nat.mod_lt _ (by omega))).1
        omega
      · simp only [if_neg h10, digitsVal, List.foldl_append, List.foldl_cons, List.foldl_nil]
        have hv := ih (n / 10) (by omega)
        simp only [digitsVal] at hv
        rw [hv]
        have := (digitChar10_spec (n % 10) (Nat.mod_lt _ (by omega))).1
        omega

/-- Test for input that cannot extend a digit run. -/
def digitBoundary : List Char → Bool
  | [] => true
  | c :: _ => !(isDigitChar c)

/-- Scanning stops immediately at a digit boundary. -/
theorem digitSpan_stop (cs : List Char) (h : digitBoundary cs = true) :
    digitSpan cs = ([], cs) := by
  cases cs with
  | nil => rfl
  | cons c t =>
      simp only [digitBoundary, Bool.not_eq_true'] at h
      simp [digitSpan, h]

/-- Scanning consumes exactly an all-digit run up to a digit boundary. -/
theorem digitSpan_append (ds : List Char) (hds : ∀ c ∈ ds, isDigitChar c = true)
    (rest : List Char) (hr : digitBoundary rest = true) :
    digitSpan (ds ++ rest) = (ds, rest) := by
  induction ds with
  | nil => simpa using digitSpan_stop rest hr
  | cons c t ih =>
      have hc : isDigitChar c = true := hds c (List.mem_cons_self c t)
      have ht := ih (fun x hx => hds x (List.mem_cons_of_mem c hx))
      simp [digitSpan, hc, ht]

/-- Parsing a printed numeral recovers the number, stopping at the boundary. -/
theorem parseNumChars_natChars (n : Nat) (rest : List Char)
    (hr : digitBoundary rest = true) :
    parseNumChars (natChars n ++ rest) = some (n, rest) := by
  have hspan := digitSpan_append (natChars n) (natChars_all_digits n) rest hr
  obtain ⟨d, ds, hcons⟩ : ∃ d ds, natChars n = d :: ds := by
    cases h : natChars n with
    | nil => exact absurd h (natChars_ne_nil _)
    | cons d ds => exact ⟨d, ds, rfl⟩
  have hguard : (decide (d = '0') && !decide (ds = [])) = false := by
    by_cases hn : n < 10
    · have hsing : natChars n = [digitChar10 (n % 10)] := by
        rw [natChars_eq, if_pos hn]; simp
      rw [hcons] at hsing
      simp only [List.cons.injEq] at hsing
      simp [hsing.2]
    · have hd := natChars_head_ne_zero n (by omega) d ds hcons
      simp [hd]
  simp only [parseNumChars]
  rw [hspan, hcons]
  simp only [hguard, Bool.false_eq_true, if_false]
  rw [← hcons, digitsVal_natChars]

/-! ## String literal lemmas

Parsing inverts the escaping `stringifyJson` applies to string bodies. -/

/-- Parsing one escaped character prepends exactly that character. -/
theorem parseStringBody_escape (c : Char) (t : List Char) :
    parseStringBody (escapeJsonChar c ++ t)
      = (parseStringBody t).map (fun p => (c :: p.1, p.2)) := by
  by_cases h1 : c = '"'
  · subst h1; rfl
  by_cases h2 : c = '\\'
  · subst h2; rfl
  by_cases hlt : c.toNat < 32
  · obtain ⟨n, hn, rfl⟩ : ∃ n, n < 32 ∧ Char.ofNat n = c := ⟨c.toNat, hlt, Char.ofNat_toNat c⟩
    interval_cases n <;> rfl
  · have e8 : ¬ c.toNat = 8 := by omega
    have e9 : ¬ c.toNat = 9 := by omega
    have eA : ¬ c.toNat = 10 := by omega
    have eC : ¬ c.toNat = 12 := by omega
    have eD : ¬ c.toNat = 13 := by omega
    have hesc : escapeJsonChar c = [c] := by
      simp only [escapeJsonChar, if_neg h1, if_neg h2, if_neg e8, if_neg e9, if_neg eA,
        if_neg eC, if_neg eD, if_neg hlt]
    rw [hesc, List.singleton_append, parseStringBody.eq_def]
    simp only [if_neg h1, if_neg h2, if_neg hlt]

/-- Parsing an escaped body stops exactly at the closing quote. -/
theorem parseStringBody_escapeChars (cs : List Char) (rest : List Char) :
    parseStringBody (escapeChars cs ++ '"' :: rest) = some (cs, rest) := by
  induction cs with
  | nil =>
      rw [escapeChars, List.nil_append, parseStringBody.eq_def]
      simp
  | cons c cs ih =>
      rw [escapeChars, List.append_assoc, parseStringBody_escape, ih]
      rfl

/-! ## Shape lemmas for printed values -/

/-- Every digit character is the printed form of its value. -/
theorem digit_char_form (d : Char) (hd : isDigitChar d = true) :
    ∃ k, k < 10 ∧ digitChar10 k = d := by
  simp only [isDigitChar, Bool.and_eq_true, decide_eq_true_eq] at hd
  refine ⟨d.toNat - 48, by omega, ?_⟩
  have h48 : 48 + (d.toNat - 48) = d.toNat := by omega
  rw [digitChar10, h48, Char.ofNat_toNat]

/-- A digit character is no whitespace and none of the structural delimiters. -/
theorem digit_char_facts (d : Char) (hd : isDigitChar d = true) :
    isWsChar d = false ∧ d ≠ ']' ∧ d ≠ '}' ∧ d ≠ ',' := by
  obtain ⟨k, hk, rfl⟩ := digit_char_form d hd
  interval_cases k <;> exact ⟨by decide, by decide, by decide, by decide⟩

/-- Every printed value begins with a character that is neither whitespace
nor a closing delimiter. -/
theorem stringify_head (j : Json) :
    ∃ c t, stringifyVal j = c :: t ∧ isWsChar c = false ∧ c ≠ ']' ∧ c ≠ '}' := by
  cases j with
  | num n =>
      by_cases hn : n < 0
      · refine ⟨'-', natChars n.natAbs, by simp [stringifyVal, intChars, hn], rfl, ?_, ?_⟩
        · decide
        · decide
      · obtain ⟨d, ds, hcons⟩ : ∃ d ds, natChars n.natAbs = d :: ds := by
          cases h : natChars n.natAbs with
          | nil => exact absurd h (natChars_ne_nil _)
          | cons d ds => exact ⟨d, ds, rfl⟩
        have hd : isDigitChar d = true :=
          natChars_all_digits n.natAbs d (hcons ▸ List.mem_cons_self d ds)
        obtain ⟨hw, hbr, hbc, _⟩ := digit_char_facts d hd
        refine ⟨d, ds, ?_, hw, hbr, hbc⟩
        simp [stringifyVal, intChars, hn, hcons]
  | bool b => cases b <;> exact ⟨_, _, rfl, rfl, by decide, by decide⟩
  | null => exact ⟨'n', ['u', 'l', 'l'], rfl, rfl, by decide, by decide⟩
  | str s => exact ⟨'"', escapeChars s.data ++ ['"'], rfl, rfl, by decide, by decide⟩
  | arr xs => exact ⟨'[', stringifyItems xs ++ [']'], rfl, rfl, by decide, by decide⟩
  | obj fs => exact ⟨'{', stringifyProps fs ++ ['}'], rfl, rfl, by decide, by decide⟩

/-- Removing whitespace fixes a text headed by a non-whitespace character. -/
theorem dropWs_cons_nws (c : Char) (t : List Char) (h : isWsChar c = false) :
    dropWs (c :: t) = c :: t := by
  simp [dropWs, h]

/-- Removing whitespace fixes printed output (it never starts with any). -/
theorem dropWs_stringify (j : Json) (x : List Char) :
    dropWs (stringifyVal j ++ x) = stringifyVal j ++ x := by
  obtain ⟨c, t, hj, hw, _, _⟩ := stringify_head j
  rw [hj, List.cons_append, dropWs_cons_nws c _ hw]

/-- Printed output is never empty. -/
theorem stringify_len_pos (j : Json) : 1 ≤ (stringifyVal j).length := by
  obtain ⟨c, t, hj, _, _, _⟩ := stringify_head j
  rw [hj]
  simp

/-! ## Duplicate-key resolution is the identity on distinct keys -/

/-- Plain concatenation of field lists. -/
def JProps.appendP : JProps → JProps → JProps
  | .nil, g => g
  | .cons k v tl, g => .cons k v (tl.appendP g)

theorem JProps.appendP_nil_right : ∀ a : JProps, a.appendP .nil = a
  | .nil => rfl
  | .cons k v tl => by
      simp [JProps.appendP, JProps.appendP_nil_right tl]

theorem JProps.appendP_assoc : ∀ a : JProps, ∀ b c : JProps,
    (a.appendP b).appendP c = a.appendP (b.appendP c)
  | .nil, _, _ => rfl
  | .cons k v tl, b, c => by
      simp [JProps.appendP, JProps.appendP_assoc tl b c]

theorem JProps.keys_appendP : ∀ a b : JProps,
    (a.appendP b).keys = a.keys ++ b.keys
  | .nil, b => by simp [JProps.appendP, JProps.keys]
  | .cons k v tl, b => by
      simp [JProps.appendP, JProps.keys, JProps.keys_appendP tl b]

/-- Writing an absent property name appends the field at the end. -/
theorem JProps.propSet_absent : ∀ acc : JProps, ∀ (k : String) (v : Json),
    k ∉ acc.keys → acc.propSet k v = acc.appendP (.cons k v .nil)
  | .nil, k, v, _ => rfl
  | .cons k0 v0 tl, k, v, h => by
      simp only [JProps.keys, List.mem_cons] at h
      push_neg at h
      simp only [JProps.propSet, JProps.appendP]
      rw [if_neg (Ne.symm h.1), JProps.propSet_absent tl k v h.2]

/-- Property writes of pairwise-fresh names, all absent from the
accumulator, just concatenate. -/
theorem JProps.writeAll_disjoint : ∀ fs acc : JProps,
    fs.distinctKeys = true → (∀ k ∈ fs.keys, k ∉ acc.keys) →
    JProps.writeAll acc fs = acc.appendP fs
  | .nil, acc, _, _ => by
      rw [JProps.appendP_nil_right]
      exact rfl
  | .cons k v tl, acc, hdist, hdisj => by
      simp only [JProps.distinctKeys, Bool.and_eq_true, Bool.not_eq_true'] at hdist
      have hk_tl : k ∉ tl.keys := by
        have hcont := hdist.1
        simpa [List.contains, List.elem_eq_mem] using hcont
      have hk_acc : k ∉ acc.keys := hdisj k (by simp [JProps.keys])
      show JProps.writeAll (acc.propSet k v) tl = _
      rw [JProps.propSet_absent acc k v hk_acc]
      have hdisj2 : ∀ k2 ∈ tl.keys, k2 ∉ (acc.appendP (.cons k v .nil)).keys := by
        intro k2 hk2
        rw [JProps.keys_appendP]
        simp only [List.mem_append, not_or]
        refine ⟨hdisj k2 (by simp [JProps.keys, hk2]), ?_⟩
        simp only [JProps.keys, List.mem_cons, List.not_mem_nil, or_false]
        intro hkk
        exact hk_tl (hkk ▸ hk2)
      rw [JProps.writeAll_disjoint tl (acc.appendP (.cons k v .nil)) hdist.2 hdisj2,
        JProps.appendP_assoc]
      rfl

/-- On a field list with pairwise-distinct names, duplicate-key resolution
changes nothing. -/
theorem dedupProps_distinct (fs : JProps) (h : fs.distinctKeys = true) :
    dedupProps fs = fs := by
  unfold dedupProps
  rw [JProps.writeAll_disjoint fs .nil h (by intro k _; simp [JProps.keys])]
  rfl

/-! ## Parser dispatch lemmas

One-step reductions of `parseJVal` at each kind of printed head. -/

/-- A value headed by a decimal digit parses through the numeral rule. -/
theorem parseJVal_digit (f : Nat) (d : Char) (t : List Char)
    (hd : isDigitChar d = true) :
    parseJVal (f + 1) (d :: t)
      = (match parseNumChars (d :: t) with
         | some (n, r2) => some (.num (n : Int), r2)
         | none => none) := by
  obtain ⟨k, hk, rfl⟩ := digit_char_form d hd
  interval_cases k <;> rfl

/-- A value headed by a minus sign parses through the negative numeral rule. -/
theorem parseJVal_minus (f : Nat) (t : List Char) :
    parseJVal (f + 1) ('-' :: t)
      = (match parseNumChars t with
         | some (n, r2) => some (.num (-(n : Int)), r2)
         | none => none) := rfl

/-- An opening bracket over a printed nonempty element list dispatches to the
element parser (the first element never starts with a closing bracket). -/
theorem parseJVal_arrCons (f : Nat) (x : Json) (tl : JItems) (rest : List Char) :
    parseJVal (f + 1) ('[' :: (stringifyItems (.cons x tl) ++ ']' :: rest))
      = (parseJItems f (stringifyItems (.cons x tl) ++ ']' :: rest)).map
          (fun p => (Json.arr p.1, p.2)) := by
  obtain ⟨c, t, hx, hw, hbr, _⟩ := stringify_head x
  obtain ⟨t2, hit⟩ : ∃ t2, stringifyItems (.cons x tl) = c :: t2 := by
    cases tl with
    | nil => exact ⟨t, by simp [stringifyItems, hx]⟩
    | cons y tl2 =>
        exact ⟨t ++ ',' :: stringifyItems (.cons y tl2), by simp [stringifyItems, hx]⟩
  rw [hit, List.cons_append]
  show (match dropWs (c :: (t2 ++ ']' :: rest)) with
        | ']' :: r2 => some (Json.arr .nil, r2)
        | cs2 => (parseJItems f cs2).map
            (fun p : JItems × List Char => (Json.arr p.1, p.2))) = _
  rw [dropWs_cons_nws c _ hw]
  split
  · rename_i heq
    rw [List.cons.injEq] at heq
    exact absurd heq.1 hbr
  · rfl

/-- An opening brace over a printed nonempty field list dispatches to the
field parser (the first field starts with its key's quote, never `}`);
the resulting fields pass through duplicate-name resolution. -/
theorem parseJVal_objCons (f : Nat) (k : String) (v : Json) (tl : JProps)
    (rest : List Char) :
    parseJVal (f + 1) ('{' :: (stringifyProps (.cons k v tl) ++ '}' :: rest))
      = (parseJProps f (stringifyProps (.cons k v tl) ++ '}' :: rest)).map
          (fun p : JProps × List Char => (Json.obj (dedupProps p.1), p.2)) := by
  obtain ⟨t2, hp⟩ : ∃ t2, stringifyProps (.cons k v tl) = '"' :: t2 := by
    cases tl with
    | nil =>
        exact ⟨(escapeChars k.data ++ ['"']) ++ ':' :: stringifyVal v,
          by simp [stringifyProps, quoteString]⟩
    | cons k2 v2 tl2 =>
        exact ⟨(escapeChars k.data ++ ['"'])
            ++ ':' :: (stringifyVal v ++ ',' :: stringifyProps (.cons k2 v2 tl2)),
          by simp [stringifyProps, quoteString]⟩
  rw [hp, List.cons_append]
  show (match dropWs ('"' :: (t2 ++ '}' :: rest)) with
        | '}' :: r2 => some (Json.obj .nil, r2)
        | cs2 => (parseJProps f cs2).map
            (fun p : JProps × List Char => (Json.obj (dedupProps p.1), p.2))) = _
  rw [dropWs_cons_nws '"' _ (by decide)]
  split
  · rename_i heq
    rw [List.cons.injEq] at heq
    exact absurd heq.1 (by decide)
  · rfl

/-- One-step unfolding of the element parser at successor fuel. -/
theorem parseJItems_step (f : Nat) (cs : List Char) :
    parseJItems (f + 1) cs
      = (match parseJVal f cs with
         | none => none
         | some (v, r) =>
             match dropWs r with
             | ',' :: r2 => (parseJItems f r2).map
                 (fun p : JItems × List Char => (.cons v p.1, p.2))
             | ']' :: r2 => some (.cons v .nil, r2)
             | _ => none) := rfl

/-- One-step unfolding of the field parser at successor fuel. -/
theorem parseJProps_step (f : Nat) (cs : List Char) :
    parseJProps (f + 1) cs
      = (match dropWs cs with
         | '"' :: r =>
             match parseStringBody r with
             | none => none
             | some (k2, r1) =>
                 match dropWs r1 with
                 | ':' :: r2 =>
                     match parseJVal f r2 with
                     | none => none
                     | some (v, r3) =>
                         match dropWs r3 with
                         | ',' :: r4 => (parseJProps f r4).map
                             (fun p : JProps × List Char => (.cons ⟨k2⟩ v p.1, p.2))
                         | '}' :: r4 => some (.cons ⟨k2⟩ v .nil, r4)
                         | _ => none
                 | _ => none
         | _ => none) := rfl

/-! ## The codec round trip

By induction on fuel (every recursive call of the parser spends one unit),
parsing recovers every printed value, element list, and field list — the
latter two through their closing delimiter. -/

theorem parse_stringify_aux : ∀ fuel : Nat,
    (∀ (j : Json) (rest : List Char), j.wfKeys = true →
        (stringifyVal j).length < fuel → digitBoundary rest = true →
        parseJVal fuel (stringifyVal j ++ rest) = some (j, rest))
  ∧ (∀ (x : Json) (tl : JItems) (rest : List Char),
        JItems.wfItems (.cons x tl) = true →
        (stringifyItems (.cons x tl)).length + 1 < fuel →
        parseJItems fuel (stringifyItems (.cons x tl) ++ ']' :: rest)
          = some (.cons x tl, rest))
  ∧ (∀ (kk : String) (v : Json) (tl : JProps) (rest : List Char),
        JProps.wfProps (.cons kk v tl) = true →
        (stringifyProps (.cons kk v tl)).length + 1 < fuel →
        parseJProps fuel (stringifyProps (.cons kk v tl) ++ '}' :: rest)
          = some (.cons kk v tl, rest)) := by
  intro fuel
  induction fuel with
  | zero =>
      refine ⟨fun j rest _ hlen _ => absurd hlen (by omega),
        fun x tl rest _ hlen => absurd hlen (by omega),
        fun kk v tl rest _ hlen => absurd hlen (by omega)⟩
  | succ f ih =>
      obtain ⟨ih1, ih2, ih3⟩ := ih
      refine ⟨?_, ?_, ?_⟩
      · -- one value
        intro j rest hwf hlen hbound
        cases j with
        | null => rfl
        | bool b => cases b <;> rfl
        | str s =>
            have harg : stringifyVal (.str s) ++ rest
                = '"' :: (escapeChars s.data ++ '"' :: rest) := by
              simp [stringifyVal, quoteString]
            rw [harg]
            show (parseStringBody (escapeChars s.data ++ '"' :: rest)).map
                (fun p : List Char × List Char => (Json.str ⟨p.1⟩, p.2))
              = some (.str s, rest)
            rw [parseStringBody_escapeChars]
            rfl
        | num n =>
            by_cases hneg : n < 0
            · have harg : stringifyVal (.num n) ++ rest
                  = '-' :: (natChars n.natAbs ++ rest) := by
                simp [stringifyVal, intChars, hneg]
              rw [harg, parseJVal_minus, parseNumChars_natChars n.natAbs rest hbound]
              show some (Json.num (-(n.natAbs : Int)), rest) = some (.num n, rest)
              have hval : -((n.natAbs : Nat) : Int) = n := by omega
              rw [hval]
            · obtain ⟨d, ds, hcons⟩ : ∃ d ds, natChars n.natAbs = d :: ds := by
                cases h : natChars n.natAbs with
                | nil => exact absurd h (natChars_ne_nil _)
                | cons d ds => exact ⟨d, ds, rfl⟩
              have hd : isDigitChar d = true :=
                natChars_all_digits n.natAbs d (hcons ▸ List.mem_cons_self d ds)
              have harg : stringifyVal (.num n) ++ rest = d :: (ds ++ rest) := by
                simp [stringifyVal, intChars, hneg, hcons]
              rw [harg, parseJVal_digit f d _ hd,
                show d :: (ds ++ rest) = natChars n.natAbs ++ rest by simp [hcons],
                parseNumChars_natChars n.natAbs rest hbound]
              show some (Json.num ((n.natAbs : Nat) : Int), rest) = some (.num n, rest)
              have hval : ((n.natAbs : Nat) : Int) = n := by omega
              rw [hval]
        | arr xs =>
            cases xs with
            | nil =>
                have harg : stringifyVal (.arr .nil) ++ rest = '[' :: ']' :: rest := by
                  simp [stringifyVal, stringifyItems]
                rw [harg]
                rfl
            | cons x tl =>
                have harg : stringifyVal (.arr (.cons x tl)) ++ rest
                    = '[' :: (stringifyItems (.cons x tl) ++ ']' :: rest) := by
                  simp [stringifyVal]
                have hwf2 : JItems.wfItems (.cons x tl) = true := by
                  simpa [Json.wfKeys] using hwf
                have hlsplit : (stringifyVal (.arr (.cons x tl))).length
                    = (stringifyItems (.cons x tl)).length + 2 := by
                  simp [stringifyVal]
                have hlen2 : (stringifyItems (.cons x tl)).length + 1 < f := by omega
                rw [harg, parseJVal_arrCons, ih2 x tl rest hwf2 hlen2]
                rfl
        | obj fs =>
            cases fs with
            | nil =>
                have harg : stringifyVal (.obj .nil) ++ rest = '{' :: '}' :: rest := by
                  simp [stringifyVal, stringifyProps]
                rw [harg]
                rfl
            | cons kk v tl =>
                have harg : stringifyVal (.obj (.cons kk v tl)) ++ rest
                    = '{' :: (stringifyProps (.cons kk v tl) ++ '}' :: rest) := by
                  simp [stringifyVal]
                have hwfsplit : JProps.distinctKeys (.cons kk v tl) = true
                    ∧ JProps.wfProps (.cons kk v tl) = true := by
                  simpa [Json.wfKeys, Bool.and_eq_true] using hwf
                have hlsplit : (stringifyVal (.obj (.cons kk v tl))).length
                    = (stringifyProps (.cons kk v tl)).length + 2 := by
                  simp [stringifyVal]
                have hlen2 : (stringifyProps (.cons kk v tl)).length + 1 < f := by omega
                rw [harg, parseJVal_objCons, ih3 kk v tl rest hwfsplit.2 hlen2]
                show some (Json.obj (dedupProps (.cons kk v tl)), rest)
                  = some (.obj (.cons kk v tl), rest)
                rw [dedupProps_distinct _ hwfsplit.1]
      · -- element list
        intro x tl rest hwf hlen
        have hwfx : x.wfKeys = true ∧ JItems.wfItems tl = true := by
          simpa [JItems.wfItems, Bool.and_eq_true] using hwf
        cases tl with
        | nil =>
            have harg : stringifyItems (.cons x .nil) ++ ']' :: rest
                = stringifyVal x ++ ']' :: rest := by
              simp [stringifyItems]
            have hlx : (stringifyVal x).length < f := by
              have : (stringifyItems (.cons x .nil)).length = (stringifyVal x).length := by
                simp [stringifyItems]
              omega
            rw [harg, parseJItems_step, ih1 x (']' :: rest) hwfx.1 hlx rfl]
            simp only []
            rw [dropWs_cons_nws ']' rest (by decide)]
            rfl
        | cons y tl2 =>
            have harg : stringifyItems (.cons x (.cons y tl2)) ++ ']' :: rest
                = stringifyVal x ++ ',' :: (stringifyItems (.cons y tl2) ++ ']' :: rest) := by
              simp [stringifyItems]
            have hlsplit : (stringifyItems (.cons x (.cons y tl2))).length
                = (stringifyVal x).length + 1 + (stringifyItems (.cons y tl2)).length := by
              simp [stringifyItems]
              omega
            have hxpos := stringify_len_pos x
            have hlx : (stringifyVal x).length < f := by omega
            have hlen2 : (stringifyItems (.cons y tl2)).length + 1 < f := by omega
            rw [harg, parseJItems_step,
              ih1 x (',' :: (stringifyItems (.cons y tl2) ++ ']' :: rest)) hwfx.1 hlx rfl]
            simp only []
            rw [dropWs_cons_nws ',' _ (by decide)]
            simp only []
            rw [ih2 y tl2 rest hwfx.2 hlen2]
            rfl
      · -- field list
        intro kk v tl rest hwf hlen
        have hwfv : v.wfKeys = true ∧ JProps.wfProps tl = true := by
          simpa [JProps.wfProps, Bool.and_eq_true] using hwf
        have hq : (quoteString kk).length = (escapeChars kk.data).length + 2 := by
          simp [quoteString]
        cases tl with
        | nil =>
            have harg : stringifyProps (.cons kk v .nil) ++ '}' :: rest
                = '"' :: (escapeChars kk.data
                    ++ '"' :: (':' :: (stringifyVal v ++ '}' :: rest))) := by
              simp [stringifyProps, quoteString]
            have hlsplit : (stringifyProps (.cons kk v .nil)).length
                = (quoteString kk).length + 1 + (stringifyVal v).length := by
              simp [stringifyProps]
              omega
            have hlv : (stringifyVal v).length < f := by omega
            rw [harg, parseJProps_step, dropWs_cons_nws '"' _ (by decide)]
            simp only []
            rw [parseStringBody_escapeChars kk.data (':' :: (stringifyVal v ++ '}' :: rest))]
            simp only []
            rw [dropWs_cons_nws ':' _ (by decide)]
            simp only []
            rw [ih1 v ('}' :: rest) hwfv.1 hlv rfl]
            simp only []
            rw [dropWs_cons_nws '}' rest (by decide)]
            rfl
        | cons k2 v2 tl2 =>
            have harg : stringifyProps (.cons kk v (.cons k2 v2 tl2)) ++ '}' :: rest
                = '"' :: (escapeChars kk.data
                    ++ '"' :: (':' :: (stringifyVal v
                      ++ ',' :: (stringifyProps (.cons k2 v2 tl2) ++ '}' :: rest)))) := by
              simp [stringifyProps, quoteString]
            have hlsplit : (stringifyProps (.cons kk v (.cons k2 v2 tl2))).length
                = (quoteString kk).length + 1 + (stringifyVal v).length + 1
                  + (stringifyProps (.cons k2 v2 tl2)).length := by
              simp [stringifyProps]
              omega
            have hvpos := stringify_len_pos v
            have hlv : (stringifyVal v).length < f := by omega
            have hlen2 : (stringifyProps (.cons k2 v2 tl2)).length + 1 < f := by omega
            rw [harg, parseJProps_step, dropWs_cons_nws '"' _ (by decide)]
            simp only []
            rw [parseStringBody_escapeChars kk.data
              (':' :: (stringifyVal v ++ ',' :: (stringifyProps (.cons k2 v2 tl2) ++ '}' :: rest)))]
            simp only []
            rw [dropWs_cons_nws ':' _ (by decide)]
            simp only []
            rw [ih1 v (',' :: (stringifyProps (.cons k2 v2 tl2) ++ '}' :: rest)) hwfv.1 hlv rfl]
            simp only []
            rw [dropWs_cons_nws ',' _ (by decide)]
            simp only []
            rw [ih3 k2 v2 tl2 rest hwfv.2 hlen2]
            rfl

/-- Parsing inverts printing on every well-formed value: the composite
`JSON.parse (JSON.stringify v)` model. -/
theorem parseJson_stringify (j : Json) (h : j.wfKeys = true) :
    parseJson (stringifyJson j) = some j := by
  have hmain := (parse_stringify_aux ((stringifyVal j).length + 1)).1 j [] h (by omega) rfl
  rw [List.append_nil] at hmain
  show (match parseJVal ((stringifyVal j).length + 1) (stringifyVal j) with
        | some (jv, r) => if dropWs r = [] then some jv else none
        | none => none) = some j
  rw [hmain]
  rfl

/-- Round trip through the `data-details` attribute: serialization as
`showCity` embeds it, retrieval as the click handler reads it back.  It is
the identity whenever the serialized text carries no ampersand of its own
(the escaping step only guards apostrophes). -/
theorem retrieveDetails_serializeDetails (d : Json) (hwf : d.wfKeys = true)
    (hamp : '&' ∉ stringifyVal d) :
    retrieveDetails (serializeDetails d) = some d := by
  show parseJson ⟨htmlAttrDecode (replaceApos (stringifyVal d))⟩ = some d
  rw [htmlAttrDecode_replaceApos _ hamp]
  exact parseJson_stringify d hwf

example :
    retrieveDetails (serializeDetails (Json.obj (.cons "a" (Json.str "&amp;") .nil)))
      = some (Json.obj (.cons "a" (Json.str "&") .nil)) := by decide

example :
    retrieveDetails (serializeDetails
        (Json.obj (.cons "cost" (Json.str "20 EUR")
          (.cons "website" (Json.str "http://example.com") .nil))))
      = some (Json.obj (.cons "cost" (Json.str "20 EUR")
          (.cons "website" (Json.str "http://example.com") .nil))) := by decide

/-! ## The itinerary data model

The shape of `itinerary.json` as the script consumes it.  JavaScript
object collections keyed by strings (`cities`, `schedule`, the `markers`
cache) are insertion-ordered association lists; geographic coordinates are
exact rationals (no arithmetic is ever performed on them). -/

/-- One scheduled activity (`event`): time label, title, description,
optional `coords` pair, optional `details` payload. -/
structure Event where
  time : String
  title : String
  description : String
  coords : Option (Rat × Rat)
  details : Option Json
deriving Repr, DecidableEq

/-- One day of a city's schedule: label (`day`), title, description, and
its ordered event list. -/
structure Day where
  day : String
  title : String
  description : String
  events : List Event
deriving Repr, DecidableEq

/-- One city: display name, summary, stored map center and zoom, and the
schedule mapping in declared iteration order. -/
structure City where
  name : String
  summary : String
  map_center : Rat × Rat
  zoom_level : Int
  schedule : List (String × Day)
deriving Repr, DecidableEq

/-- The whole document: the `cities` mapping in declared iteration order. -/
structure Itinerary where
  cities : List (String × City)
deriving Repr, DecidableEq

/-- Property read `obj[k]` on an object modelled as an association list. -/
def assocLookup {α : Type} : List (String × α) → String → Option α
  | [], _ => none
  | (k2, v) :: tl, k => if k2 = k then some v else assocLookup tl k

/-- Property write `obj[k] = v`: overwrites in place, or appends a fresh
key at the end, as JavaScript objects do. -/
def assocSet {α : Type} : List (String × α) → String → α → List (String × α)
  | [], k, v => [(k, v)]
  | (k2, v2) :: tl, k, v =>
      if k2 = k then (k2, v) :: tl else (k2, v2) :: assocSet tl k v

/-! ## The view and application state -/

/-- A Leaflet marker the script retains a handle to. -/
structure MarkerHandle where
  pos : Rat × Rat
  popup : String
deriving Repr, DecidableEq

/-- The Leaflet map instance: view parameters and the markers added to it. -/
structure MapInstance where
  center : Rat × Rat
  zoom : Int
  markersOnMap : List MarkerHandle
deriving Repr, DecidableEq

/-- One city tab button: its text content and whether it carries the
`active` class. -/
structure Tab where
  label : String
  active : Bool
deriving Repr, DecidableEq

/-- One event's list item: its text parts and the `data-details` attribute
text carrying the serialized payload (every event gets a Details button). -/
structure EventLi where
  time : String
  title : String
  description : String
  detailsAttr : String
deriving Repr, DecidableEq

/-- One collapsible day section: its header button text, its panel's
description, and its event list. -/
structure AccordionItem where
  buttonText : String
  panelDescription : String
  eventItems : List EventLi
deriving Repr, DecidableEq

/-- The rendered city view `showCity` writes into `itinerary-content`. -/
structure CityView where
  headerName : String
  headerSummary : String
  accordionItems : List AccordionItem
deriving Repr, DecidableEq

/-- The main content area: initially empty, the static fetch-failure
paragraph (`Could not load itinerary data. …`), or a rendered city. -/
inductive Content where
  | empty
  | errorMessage
  | cityView (v : CityView)
deriving Repr, DecidableEq

/-- A rendered details value: a link for `http`-prefixed strings, the bare
value otherwise. -/
inductive ModalValue where
  | link (url : String)
  | plain (v : Json)
deriving Repr, DecidableEq

/-- One `<li>` of the modal body: formatted key and rendered value. -/
structure ModalEntry where
  key : String
  value : ModalValue
deriving Repr, DecidableEq

/-- The modal body: optional `<h3>` heading (from a truthy `details.title`)
and the list of rendered entries. -/
structure ModalView where
  heading : Option Json
  entries : List ModalEntry
deriving Repr, DecidableEq

/-- The mutable state the script manipulates: the loaded document and the
DOM/Leaflet state (content area, tab row, map container visibility, map
instance, the `markers` cache object, the modal). -/
structure AppState where
  itineraryData : Itinerary
  content : Content
  tabs : List Tab
  mapVisible : Bool
  map : Option MapInstance
  markersCache : List (String × List MarkerHandle)
  modal : Option ModalView
deriving Repr, DecidableEq

/-- Whether the Leaflet global `L` is defined at render time. -/
structure MapEnv where
  leafletAvailable : Bool
deriving Repr, DecidableEq

/-- State before any script runs: nothing loaded, no tabs, empty content,
map container visible by default, no map, empty marker cache, no modal. -/
def initialState : AppState :=
  { itineraryData := { cities := [] }, content := .empty, tabs := [],
    mapVisible := true, map := none, markersCache := [], modal := none }

/-! ## The view renderer (`showCity`'s markup construction) -/

/-- The payload `showCity` serializes for an event:
`event.details || {}`. -/
def detailsOrEmpty (e : Event) : Json :=
  match e.details with
  | some d => if d.truthy then d else Json.obj .nil
  | none => Json.obj .nil

/-- One event's list item, its Details button carrying
`JSON.stringify(event.details || {}).replace(/'/g, "&apos;")`. -/
def renderEvent (e : Event) : EventLi :=
  { time := e.time, title := e.title, description := e.description,
    detailsAttr := serializeDetails (detailsOrEmpty e) }

/-- One day's accordion section: header `day.day: day.title`, panel with
the description and the event list. -/
def renderDay (d : Day) : AccordionItem :=
  { buttonText := d.day ++ ": " ++ d.title,
    panelDescription := d.description,
    eventItems := d.events.map renderEvent }

/-- The city header and one accordion section per schedule entry, in the
schedule mapping's declared order (`Object.values(city.schedule).map`). -/
def renderCity (c : City) : CityView :=
  { headerName := c.name, headerSummary := c.summary,
    accordionItems := c.schedule.map (fun kd => renderDay kd.2) }

/-! ## The map adapter (`setupMap`) -/

/-- Popup markup bound to a marker: the event's title and time. -/
def popupFor (e : Event) : String :=
  "<strong>" ++ e.title ++ "</strong><br>" ++ e.time

/-- The marker an event contributes: exactly one at its coordinate when it
has one, none otherwise (`if (event.coords)`). -/
def markerOfEvent (e : Event) : Option MarkerHandle :=
  match e.coords with
  | some pos => some { pos := pos, popup := popupFor e }
  | none => none

/-- The inner `day.events.forEach` of `setupMap`: push one marker per
coordinate-bearing event. -/
def addDayMarkers : List Event → List MarkerHandle → List MarkerHandle
  | [], acc => acc
  | e :: tl, acc =>
      match e.coords with
      | some pos => addDayMarkers tl (acc ++ [{ pos := pos, popup := popupFor e }])
      | none => addDayMarkers tl acc

/-- The outer `Object.values(city.schedule).forEach` of `setupMap`. -/
def addCityMarkers : List (String × Day) → List MarkerHandle → List MarkerHandle
  | [], acc => acc
  | (_, d) :: tl, acc => addCityMarkers tl (addDayMarkers d.events acc)

/-- All markers `setupMap` creates for a city, in schedule order. -/
def markersForCity (c : City) : List MarkerHandle := addCityMarkers c.schedule []

/-- Model of `setupMap`.  When Leaflet is missing, hide the map container and stop.
Otherwise: remove any previous map instance, show the container again,
build a fresh map at the city's stored center/zoom, call `remove()` on the
cache's old markers under this city's key (handles from an already-removed
map), and replace that cache entry with the markers just added.  `none`
models the `TypeError` thrown at `city.map_center` when the key names no
city (unreachable from `showCity`, which resolves the same key first). -/
def setupMap (env : MapEnv) (st : AppState) (cityKey : String) : Option AppState :=
  if env.leafletAvailable = false then
    some { st with mapVisible := false }
  else
    match assocLookup st.itineraryData.cities cityKey with
    | none => none
    | some city =>
        let ms := markersForCity city
        let newMap : MapInstance :=
          { center := city.map_center, zoom := city.zoom_level, markersOnMap := ms }
        some { st with
               map := some newMap,
               mapVisible := true,
               markersCache := assocSet st.markersCache cityKey ms }

/-! ## The interaction layer -/

/-- Model of `updateActiveTab`: every tab's `active` class becomes the result of
comparing its text content with the selected city's name. -/
def updateActiveTab (st : AppState) (cityName : String) : AppState :=
  { st with tabs := st.tabs.map (fun t => { t with active := t.label == cityName }) }

/-- Model of `showCity`: render the city into the content area, re-attach handlers
(`addEventListeners`, no state), rebuild the map, and update the active
tab.  `none` models the `TypeError` thrown at `city.schedule` when the key
names no city — before any DOM change. -/
def showCity (env : MapEnv) (st : AppState) (cityKey : String) : Option AppState :=
  match assocLookup st.itineraryData.cities cityKey with
  | none => none
  | some city =>
      let st1 := { st with content := Content.cityView (renderCity city) }
      match setupMap env st1 cityKey with
      | none => none
      | some st2 => some (updateActiveTab st2 city.name)

/-- Model of `populateCities`: clear the tab row and append one button per city, its
text content the city's display name, none active yet. -/
def populateCities (st : AppState) : AppState :=
  let newTabs : List Tab :=
    st.itineraryData.cities.map (fun kc => { label := kc.2.name, active := false })
  { st with tabs := newTabs }

/-- Outcome of the startup fetch and parse of `itinerary.json`. -/
inductive FetchOutcome where
  | notOk (status : Nat)
  | parseFail
  | success (data : Itinerary)
deriving Repr, DecidableEq

/-- Model of `fetchItineraryData`: on a non-success status or a parse failure the
`catch` replaces the content area with the static error message and nothing
else runs.  On success, store the document, populate the tabs, and run the
guarded initial render `if (firstCityKey) showCity(firstCityKey)`: with no
cities the first key is `undefined`, and the empty-string key is falsy too,
so in both cases no city is shown; a failure inside `showCity` would land
in the same `catch` (unreachable here: the first key always resolves). -/
def fetchItineraryData (env : MapEnv) (st : AppState) (outcome : FetchOutcome) : AppState :=
  match outcome with
  | .notOk _ => { st with content := .errorMessage }
  | .parseFail => { st with content := .errorMessage }
  | .success data =>
      let st1 := populateCities { st with itineraryData := data }
      match data.cities with
      | [] => st1
      | (k, _) :: _ =>
          if k = "" then st1
          else
            match showCity env st1 k with
            | some st2 => st2
            | none => { st1 with content := .errorMessage }

/-! ## The modal (`showModal` and the details-button handler) -/

/-- Word characters of the `\w` regex class. -/
def isWordChar (c : Char) : Bool := c.isAlphanum || c = '_'

/-- Model of `key.replace(/_/g, ' ')`. -/
def underscoresToSpaces (cs : List Char) : List Char :=
  cs.map (fun c => if c = '_' then ' ' else c)

/-- Model of `.replace(/\b\w/g, c => c.toUpperCase())`: upper-case every word
character not preceded by one. -/
def capWordStarts : Bool → List Char → List Char
  | _, [] => []
  | prevWord, c :: cs =>
      (if !prevWord && isWordChar c then c.toUpper else c) :: capWordStarts (isWordChar c) cs

/-- The formatted key `showModal` displays. -/
def formatKey (k : String) : String :=
  ⟨capWordStarts false (underscoresToSpaces k.data)⟩

/-- Character-list leading-match test (JavaScript `text.startsWith(p)`). -/
def headMatches : List Char → List Char → Bool
  | [], _ => true
  | _ :: _, [] => false
  | p :: ps, c :: cs => p = c && headMatches ps cs

/-- JavaScript `value.startsWith(p)` on the model's strings. -/
def strStartsWith (s p : String) : Bool := headMatches p.data s.data

/-- Rendering of one truthy details value: an `<a>` for strings starting
with `http` (`typeof value === 'string' && value.startsWith('http')`), the
bare value otherwise. -/
def renderDetailValue (v : Json) : ModalValue :=
  match v with
  | .str s => if strStartsWith s "http" then .link s else .plain (.str s)
  | v => .plain v

/-- The `for (const [key, value] of Object.entries(details))` loop of
`showModal`: append one list item per truthy value, skip falsy ones. -/
def modalLoop : List (String × Json) → List ModalEntry → List ModalEntry
  | [], acc => acc
  | (k, v) :: tl, acc =>
      if v.truthy then
        modalLoop tl (acc ++ [{ key := formatKey k, value := renderDetailValue v }])
      else modalLoop tl acc

/-- Index/element pairs, as `Object.entries` yields for arrays and strings. -/
def indexedEntries (xs : List Json) : List (String × Json) :=
  xs.enum.map (fun p => (⟨natChars p.1⟩, p.2))

/-- Model of `Object.entries` on the parsed payload: an object's own fields in
order; indexed entries for arrays and strings; nothing for the remaining
primitives — except `null`, where `Object.entries` throws (`none`). -/
def jsEntries : Json → Option (List (String × Json))
  | .null => none
  | .bool _ => some []
  | .num _ => some []
  | .str s => some (indexedEntries (s.data.map (fun c => Json.str ⟨[c]⟩)))
  | .arr xs => some (indexedEntries xs.toList)
  | .obj fs => some fs.toList

/-- Model of `showModal`: build the body from the payload's entries, prefix an
`<h3>` when `details.title` is truthy, and display the modal. -/
def showModal (details : Json) : Option ModalView :=
  match jsEntries details with
  | none => none
  | some entries =>
      let title :=
        match details with
        | .obj fs =>
            match fs.propGet "title" with
            | some t => if t.truthy then some t else none
            | none => none
        | _ => none
      some { heading := title, entries := modalLoop entries [] }

/-- The details-button click handler: `JSON.parse` what `getAttribute`
returns for `data-details`, then `showModal` the result. -/
def detailsButtonClick (st : AppState) (attrText : String) : Option AppState :=
  match retrieveDetails attrText with
  | none => none
  | some d =>
      match showModal d with
      | none => none
      | some mv => some { st with modal := some mv }

/-- Model of `closeModal`. -/
def closeModal (st : AppState) : AppState := { st with modal := none }

/-! ## A concrete itinerary for instantiating the theorems -/

/-- The details payload of the specification's example event. -/
def louvreDetails : Json :=
  Json.obj (.cons "cost" (Json.str "20 EUR")
    (.cons "website" (Json.str "http://example.com") .nil))

def louvre : Event :=
  { time := "9:00", title := "Louvre", description := "Museum visit",
    coords := some (48, 2), details := some louvreDetails }

def seineWalk : Event :=
  { time := "14:00", title := "Seine walk", description := "Riverside stroll",
    coords := none, details := none }

def parisDay1 : Day :=
  { day := "Day 1", title := "Classics", description := "Core sights",
    events := [louvre, seineWalk] }

def paris : City :=
  { name := "Paris", summary := "Three days in Paris", map_center := (48, 2),
    zoom_level := 13, schedule := [("day1", parisDay1)] }

def colosseum : Event :=
  { time := "10:00", title := "Colosseum", description := "Ancient arena",
    coords := some (41, 12), details := none }

def romeDay1 : Day :=
  { day := "Day 1", title := "Ancient Rome", description := "Ruins",
    events := [colosseum] }

def rome : City :=
  { name := "Rome", summary := "Two days in Rome", map_center := (41, 12),
    zoom_level := 12, schedule := [("day1", romeDay1)] }

def sampleItinerary : Itinerary := { cities := [("paris", paris), ("rome", rome)] }

def leafletOn : MapEnv := { leafletAvailable := true }

def leafletOff : MapEnv := { leafletAvailable := false }

/-- The state after a successful startup load of the sample itinerary:
tabs populated and the first city (Paris) shown. -/
def stateAfterLoad : AppState :=
  fetchItineraryData leafletOn initialState (.success sampleItinerary)

/-- The state after then clicking the Rome tab. -/
def romeState : AppState :=
  (showCity leafletOn stateAfterLoad "rome").getD initialState

/-! ## Association list lemmas -/

theorem assocLookup_assocSet_self {α : Type} :
    ∀ (l : List (String × α)) (k : String) (v : α),
      assocLookup (assocSet l k v) k = some v
  | [], k, v => by simp [assocSet, assocLookup]
  | (k2, v2) :: tl, k, v => by
      by_cases h : k2 = k <;>
        simp [assocSet, assocLookup, h, assocLookup_assocSet_self tl k v]

theorem assocLookup_assocSet_other {α : Type} :
    ∀ (l : List (String × α)) (k : String) (v : α) (k2 : String), k2 ≠ k →
      assocLookup (assocSet l k v) k2 = assocLookup l k2
  | [], k, v, k2, hne => by
      simp only [assocSet, assocLookup]
      rw [if_neg (fun h => hne h.symm)]
  | (k3, v3) :: tl, k, v, k2, hne => by
      by_cases h : k3 = k
      · subst h
        simp only [assocSet, if_pos rfl, assocLookup]
        rw [if_neg (fun h2 => hne h2.symm), if_neg (fun h2 => hne h2.symm)]
      · simp only [assocSet, if_neg h, assocLookup]
        by_cases h3 : k3 = k2
        · rw [if_pos h3, if_pos h3]
        · rw [if_neg h3, if_neg h3, assocLookup_assocSet_other tl k v k2 hne]

/-- A looked-up value is one of the list's values. -/
theorem assocLookup_mem_values {α : Type} :
    ∀ (l : List (String × α)) (k : String) (v : α),
      assocLookup l k = some v → v ∈ l.map (fun kv => kv.2)
  | [], k, v, h => by simp [assocLookup] at h
  | (k2, v2) :: tl, k, v, h => by
      by_cases hk : k2 = k
      · simp only [assocLookup, if_pos hk, Option.some.injEq] at h
        simp [h]
      · simp only [assocLookup, if_neg hk] at h
        simp [assocLookup_mem_values tl k v h]

/-! ## What one `showCity` call does, in full -/

/-- Complete characterization of a successful `showCity` call: the content
area shows the rendered city, the active tab marking is recomputed from the
city's display name, the document is untouched; with Leaflet missing the
map area is hidden and the map state untouched, with Leaflet present the
map area is shown and a fresh map carries the city's markers, the cache
entry for this key being replaced and all others kept. -/
theorem showCity_spec (env : MapEnv) (st : AppState) (key : String) (city : City)
    (hlk : assocLookup st.itineraryData.cities key = some city) :
    ∃ st2, showCity env st key = some st2
      ∧ st2.itineraryData = st.itineraryData
      ∧ st2.content = Content.cityView (renderCity city)
      ∧ st2.tabs = st.tabs.map (fun t => { t with active := t.label == city.name })
      ∧ st2.modal = st.modal
      ∧ (env.leafletAvailable = false →
          st2.mapVisible = false ∧ st2.map = st.map ∧ st2.markersCache = st.markersCache)
      ∧ (env.leafletAvailable = true →
          st2.mapVisible = true
          ∧ st2.map = some { center := city.map_center, zoom := city.zoom_level, markersOnMap := markersForCity city }
          ∧ st2.markersCache = assocSet st.markersCache key (markersForCity city)) := by
  cases henv : env.leafletAvailable with
  | false =>
      refine ⟨updateActiveTab { st with content := Content.cityView (renderCity city), mapVisible := false } city.name,
        ?_, rfl, rfl, rfl, rfl, fun _ => ⟨rfl, rfl, rfl⟩,
        fun h => Bool.noConfusion h⟩
      unfold showCity setupMap
      simp only [hlk, henv]
      rfl
  | true =>
      refine ⟨updateActiveTab { st with content := Content.cityView (renderCity city), mapVisible := true, map := some { center := city.map_center, zoom := city.zoom_level, markersOnMap := markersForCity city }, markersCache := assocSet st.markersCache key (markersForCity city) } city.name,
        ?_, rfl, rfl, rfl, rfl,
        fun h => Bool.noConfusion h,
        fun _ => ⟨rfl, rfl, rfl⟩⟩
      unfold showCity setupMap
      simp only [hlk, henv]
      rfl

/-! ## Claim theorems -/

/-- C3: a startup fetch with a non-success HTTP status or a JSON parse
failure replaces the main content area with the static error message and
performs nothing else — the tabs stay as they were (unpopulated at
startup), and no city view or map work happens. -/
theorem fetchFailure_shows_error_only (env : MapEnv) (st : AppState)
    (outcome : FetchOutcome)
    (herr : (∃ s, outcome = FetchOutcome.notOk s) ∨ outcome = FetchOutcome.parseFail) :
    (fetchItineraryData env st outcome).content = Content.errorMessage
    ∧ (fetchItineraryData env st outcome).tabs = st.tabs
    ∧ (fetchItineraryData env st outcome).map = st.map
    ∧ (fetchItineraryData env st outcome).mapVisible = st.mapVisible
    ∧ (fetchItineraryData env st outcome).markersCache = st.markersCache
    ∧ (fetchItineraryData env st outcome).modal = st.modal
    ∧ (fetchItineraryData env st outcome).itineraryData = st.itineraryData := by
  rcases herr with ⟨s, rfl⟩ | rfl <;> exact ⟨rfl, rfl, rfl, rfl, rfl, rfl, rfl⟩

/-- Witness for C3 at a concrete HTTP 404 from the startup state: the error
message is shown and the (empty) tab row stays empty. -/
theorem fetchFailure_shows_error_only_witness :
    ((∃ s, FetchOutcome.notOk 404 = FetchOutcome.notOk s)
      ∨ FetchOutcome.notOk 404 = FetchOutcome.parseFail)
    ∧ ((fetchItineraryData leafletOn initialState (.notOk 404)).content
          = Content.errorMessage
       ∧ (fetchItineraryData leafletOn initialState (.notOk 404)).tabs
          = initialState.tabs
       ∧ (fetchItineraryData leafletOn initialState (.notOk 404)).map
          = initialState.map
       ∧ (fetchItineraryData leafletOn initialState (.notOk 404)).mapVisible
          = initialState.mapVisible
       ∧ (fetchItineraryData leafletOn initialState (.notOk 404)).markersCache
          = initialState.markersCache
       ∧ (fetchItineraryData leafletOn initialState (.notOk 404)).modal
          = initialState.modal
       ∧ (fetchItineraryData leafletOn initialState (.notOk 404)).itineraryData
          = initialState.itineraryData) :=
  ⟨Or.inl ⟨404, rfl⟩,
   fetchFailure_shows_error_only leafletOn initialState (.notOk 404) (Or.inl ⟨404, rfl⟩)⟩

/-- C4: rendering a city produces exactly one collapsible accordion section
per schedule entry — one per day, in the schedule mapping's declared
iteration order — each headed by the day's label and title. -/
theorem renderCity_one_section_per_day (c : City) :
    (renderCity c).accordionItems.length = c.schedule.length
    ∧ (renderCity c).accordionItems = c.schedule.map (fun kd => renderDay kd.2)
    ∧ ∀ kd ∈ c.schedule, (renderDay kd.2).buttonText = kd.2.day ++ ": " ++ kd.2.title := by
  exact ⟨by simp [renderCity], rfl, fun kd _ => rfl⟩

/-- Witness for C4 at the sample Paris city (one day). -/
theorem renderCity_one_section_per_day_witness :
    (renderCity paris).accordionItems.length = paris.schedule.length
    ∧ (renderCity paris).accordionItems = paris.schedule.map (fun kd => renderDay kd.2)
    ∧ (renderDay parisDay1).buttonText = "Day 1: Classics" := by
  refine ⟨(renderCity_one_section_per_day paris).1, (renderCity_one_section_per_day paris).2.1, ?_⟩
  have h := (renderCity_one_section_per_day paris).2.2 ("day1", parisDay1) (by decide)
  rw [h]
  decide

/-- C7: with the mapping library unavailable at render time, showing a city
hides the map area entirely while still completing the rest of the render
(header and schedule content, tab update); with the library available, the
map area is made visible again. -/
theorem showCity_map_degrade (env : MapEnv) (st : AppState) (key : String) (city : City)
    (hlk : assocLookup st.itineraryData.cities key = some city) :
    ∃ st2, showCity env st key = some st2
      ∧ st2.content = Content.cityView (renderCity city)
      ∧ st2.tabs = st.tabs.map (fun t => { t with active := t.label == city.name })
      ∧ (env.leafletAvailable = false → st2.mapVisible = false ∧ st2.map = st.map)
      ∧ (env.leafletAvailable = true → st2.mapVisible = true) := by
  obtain ⟨st2, hs, _, hc, ht, _, hoff, hon⟩ := showCity_spec env st key city hlk
  exact ⟨st2, hs, hc, ht, fun h => ⟨(hoff h).1, (hoff h).2.1⟩, fun h => (hon h).1⟩

/-- Witness for C7: showing Rome from the loaded state with Leaflet absent. -/
theorem showCity_map_degrade_witness :
    assocLookup stateAfterLoad.itineraryData.cities "rome" = some rome
    ∧ (∃ st2, showCity leafletOff stateAfterLoad "rome" = some st2
        ∧ st2.content = Content.cityView (renderCity rome)
        ∧ st2.tabs = stateAfterLoad.tabs.map
            (fun t => { t with active := t.label == rome.name })
        ∧ (leafletOff.leafletAvailable = false → st2.mapVisible = false ∧ st2.map = stateAfterLoad.map)
        ∧ (leafletOff.leafletAvailable = true → st2.mapVisible = true)) :=
  ⟨by decide, showCity_map_degrade leafletOff stateAfterLoad "rome" rome (by decide)⟩

/-- C9: rendering and interaction operations after a load leave the loaded
itinerary data untouched — showing a city, rebuilding the map, opening the
details modal, recomputing the active tab, closing the modal. -/
theorem render_ops_preserve_itineraryData :
    (∀ (env : MapEnv) (st : AppState) (key : String) (st2 : AppState),
        showCity env st key = some st2 → st2.itineraryData = st.itineraryData)
    ∧ (∀ (env : MapEnv) (st : AppState) (key : String) (st2 : AppState),
        setupMap env st key = some st2 → st2.itineraryData = st.itineraryData)
    ∧ (∀ (st : AppState) (attrText : String) (st2 : AppState),
        detailsButtonClick st attrText = some st2 → st2.itineraryData = st.itineraryData)
    ∧ (∀ (st : AppState) (nm : String),
        (updateActiveTab st nm).itineraryData = st.itineraryData)
    ∧ (∀ st : AppState, (closeModal st).itineraryData = st.itineraryData) := by
  refine ⟨?_, ?_, ?_, fun st nm => rfl, fun st => rfl⟩
  · intro env st key st2 hs
    cases hlk : assocLookup st.itineraryData.cities key with
    | none =>
        unfold showCity at hs
        rw [hlk] at hs
        cases hs
    | some city =>
        obtain ⟨st2b, hsb, hit, _, _, _, _, _⟩ := showCity_spec env st key city hlk
        rw [hsb] at hs
        cases hs
        exact hit
  · intro env st key st2 hs
    unfold setupMap at hs
    by_cases henv : env.leafletAvailable = false
    · rw [if_pos henv] at hs
      cases hs
      rfl
    · rw [if_neg henv] at hs
      cases hlk : assocLookup st.itineraryData.cities key with
      | none => rw [hlk] at hs; cases hs
      | some city =>
          rw [hlk] at hs
          simp only [] at hs
          cases hs
          rfl
  · intro st attrText st2 hs
    unfold detailsButtonClick at hs
    cases hr : retrieveDetails attrText with
    | none => rw [hr] at hs; cases hs
    | some d =>
        rw [hr] at hs
        simp only [] at hs
        cases hm : showModal d with
        | none => rw [hm] at hs; cases hs
        | some mv =>
            rw [hm] at hs
            cases hs
            rfl

/-- Witness for C9: the Rome tab click keeps the loaded document. -/
theorem render_ops_preserve_itineraryData_witness :
    showCity leafletOn stateAfterLoad "rome" = some romeState
    ∧ romeState.itineraryData = stateAfterLoad.itineraryData :=
  ⟨by decide,
   render_ops_preserve_itineraryData.1 leafletOn stateAfterLoad "rome" romeState (by decide)⟩

/-! ## C1: the marker cache across city switches -/

/-- Formalization of the claimed invariant: every cache entry either
belongs to the selected city or is empty. -/
def cacheOnlySelected (st : AppState) (key : String) : Bool :=
  st.markersCache.all (fun e => e.1 == key || e.2.isEmpty)

/-- C1 counterexample: loading the sample itinerary selects Paris and
caches its marker; switching to Rome leaves Paris's nonempty cache entry in
place, so the cache does not hold only the selected city's markers. -/
theorem switch_city_cache_counterexample :
    (showCity leafletOn stateAfterLoad "rome").map (fun st2 => cacheOnlySelected st2 "rome")
      = some false
    ∧ (showCity leafletOn stateAfterLoad "rome").map
        (fun st2 => assocLookup st2.markersCache "paris")
      = some (some [{ pos := (48, 2), popup := "<strong>Louvre</strong><br>9:00" }]) :=
  ⟨by decide, by decide⟩

/-- C1 amended: switching to a city discards the previous map instance
(and with it the previously shown city's on-screen markers) and replaces
the cache entry under the newly selected key — that key's old entries are
removed before the fresh markers are stored — while cache entries under
every other key persist unchanged. -/
theorem switch_city_cache_amended (env : MapEnv) (st : AppState) (key : String)
    (city : City) (st2 : AppState)
    (henv : env.leafletAvailable = true)
    (hlk : assocLookup st.itineraryData.cities key = some city)
    (hs : showCity env st key = some st2) :
    st2.map = some { center := city.map_center, zoom := city.zoom_level, markersOnMap := markersForCity city }
    ∧ st2.markersCache = assocSet st.markersCache key (markersForCity city)
    ∧ assocLookup st2.markersCache key = some (markersForCity city)
    ∧ (∀ k2, k2 ≠ key →
        assocLookup st2.markersCache k2 = assocLookup st.markersCache k2) := by
  obtain ⟨st2b, hsb, _, _, _, _, _, hon⟩ := showCity_spec env st key city hlk
  rw [hsb] at hs
  cases hs
  obtain ⟨_, hmap, hcache⟩ := hon henv
  refine ⟨hmap, hcache, ?_, ?_⟩
  · rw [hcache]
    exact assocLookup_assocSet_self _ _ _
  · intro k2 hne
    rw [hcache]
    exact assocLookup_assocSet_other _ _ _ _ hne

/-- Witness for the amended C1 at the concrete Rome switch. -/
theorem switch_city_cache_amended_witness :
    leafletOn.leafletAvailable = true
    ∧ assocLookup stateAfterLoad.itineraryData.cities "rome" = some rome
    ∧ showCity leafletOn stateAfterLoad "rome" = some romeState
    ∧ (romeState.map = some { center := rome.map_center, zoom := rome.zoom_level, markersOnMap := markersForCity rome }
       ∧ romeState.markersCache
          = assocSet stateAfterLoad.markersCache "rome" (markersForCity rome)
       ∧ assocLookup romeState.markersCache "rome" = some (markersForCity rome)
       ∧ (∀ k2, k2 ≠ "rome" →
            assocLookup romeState.markersCache k2
              = assocLookup stateAfterLoad.markersCache k2)) :=
  ⟨rfl, by decide, by decide,
   switch_city_cache_amended leafletOn stateAfterLoad "rome" rome romeState rfl
     (by decide) (by decide)⟩

/-! ## C2: exactly one active tab -/

/-- In a duplicate-free list, filtering for one present element finds
exactly it. -/
theorem filter_beq_length (l : List String) (nm : String) (hnd : l.Nodup)
    (hm : nm ∈ l) : (l.filter (fun s => s == nm)).length = 1 := by
  induction l with
  | nil => cases hm
  | cons a tl ih =>
      rw [List.nodup_cons] at hnd
      rcases List.mem_cons.mp hm with rfl | hm2
      · have hnone : tl.filter (fun s => s == nm) = [] := by
          rw [List.filter_eq_nil_iff]
          intro b hb
          simp only [beq_iff_eq]
          intro h
          exact hnd.1 (h ▸ hb)
        simp [List.filter_cons, hnone]
      · have hane : (a == nm) = false := by
          simp only [beq_eq_false_iff_ne]
          intro h
          exact hnd.1 (h ▸ hm2)
        simp [List.filter_cons, hane, ih hnd.2 hm2]

/-- Recomputing the active marks leaves exactly one active tab: the one
whose text is the (present, unique) selected name. -/
theorem updateActiveTab_exactly_one (st : AppState) (nm : String)
    (hnd : (st.tabs.map (fun t => t.label)).Nodup)
    (hm : nm ∈ st.tabs.map (fun t => t.label)) :
    (((updateActiveTab st nm).tabs.filter (fun t => t.active)).length = 1)
    ∧ ∀ t ∈ (updateActiveTab st nm).tabs, t.active = (t.label == nm) := by
  constructor
  · show (((st.tabs.map (fun t => { t with active := t.label == nm })).filter
        (fun t => t.active)).length = 1)
    rw [List.filter_map, List.length_map]
    have hcomp : ((fun t : Tab => t.active) ∘
        (fun t : Tab => { t with active := t.label == nm })) = fun t : Tab => t.label == nm := rfl
    rw [hcomp]
    have h2 : ((st.tabs.map (fun t => t.label)).filter (fun s => s == nm)).length
        = (st.tabs.filter (fun t => t.label == nm)).length := by
      rw [List.filter_map, List.length_map]
      rfl
    rw [← h2]
    exact filter_beq_length _ nm hnd hm
  · intro t ht
    rcases List.mem_map.mp ht with ⟨t0, _, rfl⟩
    rfl

/-- C2 (amended): for every itinerary whose city display names are unique,
exactly one tab carries the active mark after the initial load provided the
first city key is nonempty (the `if (firstCityKey)` guard: an empty-string
first key is falsy, so no city is shown and no tab activated), and after
every tab click exactly one tab carries it — the tab whose text equals the
selected city's display name. -/
theorem exactly_one_active_tab (env : MapEnv) (data : Itinerary)
    (hnodup : (data.cities.map (fun kc => kc.2.name)).Nodup) :
    (∀ (k : String) (c : City) (rest : List (String × City)),
        data.cities = (k, c) :: rest → k ≠ "" →
        (((fetchItineraryData env initialState (.success data)).tabs.filter
            (fun t => t.active)).length = 1
         ∧ ∀ t ∈ (fetchItineraryData env initialState (.success data)).tabs,
              t.active = (t.label == c.name)))
    ∧ (∀ (st : AppState) (key : String) (city : City) (st2 : AppState),
        st.itineraryData = data →
        st.tabs.map (fun t => t.label) = data.cities.map (fun kc => kc.2.name) →
        assocLookup data.cities key = some city →
        showCity env st key = some st2 →
        ((st2.tabs.filter (fun t => t.active)).length = 1
         ∧ ∀ t ∈ st2.tabs, t.active = (t.label == city.name))) := by
  have hclick : ∀ (st : AppState) (key : String) (city : City) (st2 : AppState),
      st.itineraryData = data →
      st.tabs.map (fun t => t.label) = data.cities.map (fun kc => kc.2.name) →
      assocLookup data.cities key = some city →
      showCity env st key = some st2 →
      ((st2.tabs.filter (fun t => t.active)).length = 1
       ∧ ∀ t ∈ st2.tabs, t.active = (t.label == city.name)) := by
    intro st key city st2 hid htabs hlk hs
    obtain ⟨st2b, hsb, _, _, ht, _, _, _⟩ :=
      showCity_spec env st key city (by rw [hid]; exact hlk)
    rw [hsb] at hs
    cases hs
    have hname : city.name ∈ st.tabs.map (fun t => t.label) := by
      rw [htabs]
      have hv := assocLookup_mem_values data.cities key city hlk
      rcases List.mem_map.mp hv with ⟨kv, hkv, hkv2⟩
      exact List.mem_map.mpr ⟨kv, hkv, by rw [hkv2]⟩
    have hnd2 : (st.tabs.map (fun t => t.label)).Nodup := by rw [htabs]; exact hnodup
    have hone := updateActiveTab_exactly_one st city.name hnd2 hname
    rw [ht]
    exact hone
  refine ⟨?_, hclick⟩
  intro k c rest hcities hk
  have hlk1 : assocLookup
      (populateCities { initialState with itineraryData := data }).itineraryData.cities k
        = some c := by
    show assocLookup data.cities k = some c
    rw [hcities]
    simp [assocLookup]
  obtain ⟨st2b, hsb, _, _, _, _, _, _⟩ :=
    showCity_spec env (populateCities { initialState with itineraryData := data }) k c hlk1
  have hfetch : fetchItineraryData env initialState (.success data) = st2b := by
    unfold fetchItineraryData
    simp only []
    rw [hcities]
    simp only [if_neg hk, hsb]
  rw [hfetch]
  exact hclick (populateCities { initialState with itineraryData := data }) k c st2b rfl
    (by simp [populateCities, initialState, List.map_map])
    (by rw [hcities]; simp [assocLookup])
    hsb

/-- An itinerary whose first city key is the empty string: valid per the
claim's stated precondition (display names unique), yet falsy as a key. -/
def emptyKeyItinerary : Itinerary := { cities := [("", paris), ("rome", rome)] }

/-- C2 counterexample: the claim's stated precondition (unique display
names) holds for `emptyKeyItinerary`, but after the initial load zero tabs
are active, not exactly one — the first key is the empty string, so the
`if (firstCityKey)` guard skips the initial `showCity` call while the tab
row is already populated. -/
theorem exactly_one_active_tab_counterexample :
    (emptyKeyItinerary.cities.map (fun kc => kc.2.name)).Nodup
    ∧ ((fetchItineraryData leafletOn initialState
          (.success emptyKeyItinerary)).tabs.length = 2)
    ∧ ¬ (((fetchItineraryData leafletOn initialState
          (.success emptyKeyItinerary)).tabs.filter
            (fun t => t.active)).length = 1) := by
  refine ⟨by decide, by decide, by decide⟩

/-- Witness for C2 at the sample itinerary: its first key is nonempty, and
the initial load activates the Paris tab, and only it. -/
theorem exactly_one_active_tab_witness :
    (sampleItinerary.cities.map (fun kc => kc.2.name)).Nodup
    ∧ ("paris" : String) ≠ ""
    ∧ (((fetchItineraryData leafletOn initialState (.success sampleItinerary)).tabs.filter
          (fun t => t.active)).length = 1
       ∧ ∀ t ∈ (fetchItineraryData leafletOn initialState (.success sampleItinerary)).tabs,
            t.active = (t.label == paris.name)) :=
  ⟨by decide, by decide,
   (exactly_one_active_tab leafletOn sampleItinerary (by decide)).1 "paris" paris
     [("rome", rome)] (by decide) (by decide)⟩

/-! ## C5: one marker per coordinate-bearing event -/

/-- The inner marker loop appends exactly the markers of the
coordinate-bearing events, in order. -/
theorem addDayMarkers_eq : ∀ (es : List Event) (acc : List MarkerHandle),
    addDayMarkers es acc = acc ++ es.filterMap markerOfEvent
  | [], acc => by simp [addDayMarkers]
  | e :: tl, acc => by
      cases hc : e.coords with
      | none =>
          simp [addDayMarkers, hc, markerOfEvent, addDayMarkers_eq tl acc]
      | some pos =>
          simp [addDayMarkers, hc, markerOfEvent,
            addDayMarkers_eq tl (acc ++ [{ pos := pos, popup := popupFor e }])]

/-- The outer marker loop concatenates the days' marker lists in schedule
order. -/
theorem addCityMarkers_eq : ∀ (sched : List (String × Day)) (acc : List MarkerHandle),
    addCityMarkers sched acc
      = acc ++ (sched.map (fun kd => kd.2.events.filterMap markerOfEvent)).flatten
  | [], acc => by simp [addCityMarkers]
  | (k, d) :: tl, acc => by
      rw [addCityMarkers, addDayMarkers_eq, addCityMarkers_eq tl _]
      simp

/-- The markers `setupMap` builds for a city: one marker per
coordinate-bearing event, days in declared order. -/
theorem markersForCity_eq (c : City) :
    markersForCity c
      = (c.schedule.map (fun kd => kd.2.events.filterMap markerOfEvent)).flatten := by
  unfold markersForCity
  rw [addCityMarkers_eq]
  simp

/-- C5: rebuilding the map for a city places, per event of that city, no
marker when the event lacks a coordinate and exactly one marker at the
coordinate otherwise, its popup carrying the event's title and time. -/
theorem setupMap_marker_per_event (env : MapEnv) (st : AppState) (key : String)
    (city : City) (st2 : AppState)
    (henv : env.leafletAvailable = true)
    (hlk : assocLookup st.itineraryData.cities key = some city)
    (hs : setupMap env st key = some st2) :
    (∃ m : MapInstance, st2.map = some m
      ∧ m.markersOnMap
          = (city.schedule.map (fun kd => kd.2.events.filterMap markerOfEvent)).flatten)
    ∧ (∀ e : Event, e.coords = none → markerOfEvent e = none)
    ∧ (∀ (e : Event) (pos : Rat × Rat), e.coords = some pos →
        markerOfEvent e
          = some { pos := pos, popup := "<strong>" ++ e.title ++ "</strong><br>" ++ e.time }) := by
  unfold setupMap at hs
  rw [if_neg (fun h => Bool.noConfusion (henv.symm.trans h)), hlk] at hs
  simp only [] at hs
  cases hs
  refine ⟨⟨_, rfl, markersForCity_eq city⟩, ?_, ?_⟩
  · intro e he
    simp [markerOfEvent, he]
  · intro e pos he
    simp [markerOfEvent, he, popupFor]

/-- The state after rebuilding the map for Rome from the loaded state. -/
def romeMapState : AppState := (setupMap leafletOn stateAfterLoad "rome").getD initialState

/-- Witness for C5 at the concrete Rome rebuild, with the coordinate-free
and coordinate-bearing sample events instantiated. -/
theorem setupMap_marker_per_event_witness :
    leafletOn.leafletAvailable = true
    ∧ assocLookup stateAfterLoad.itineraryData.cities "rome" = some rome
    ∧ setupMap leafletOn stateAfterLoad "rome" = some romeMapState
    ∧ ((∃ m : MapInstance, romeMapState.map = some m
          ∧ m.markersOnMap
              = (rome.schedule.map (fun kd => kd.2.events.filterMap markerOfEvent)).flatten)
       ∧ (∀ e : Event, e.coords = none → markerOfEvent e = none)
       ∧ (∀ (e : Event) (pos : Rat × Rat), e.coords = some pos →
            markerOfEvent e
              = some { pos := pos, popup := "<strong>" ++ e.title ++ "</strong><br>" ++ e.time })) :=
  ⟨rfl, by decide, by decide,
   setupMap_marker_per_event leafletOn stateAfterLoad "rome" rome romeMapState rfl
     (by decide) (by decide)⟩

/-! ## C6 and C10: the modal body -/

/-- The modal loop renders exactly the truthy entries, in order: formatted
key, value rendered by `renderDetailValue`. -/
theorem modalLoop_eq : ∀ (l : List (String × Json)) (acc : List ModalEntry),
    modalLoop l acc
      = acc ++ (l.filter (fun kv => kv.2.truthy)).map
          (fun kv => { key := formatKey kv.1, value := renderDetailValue kv.2 })
  | [], acc => by simp [modalLoop]
  | (k, v) :: tl, acc => by
      cases hv : v.truthy with
      | true =>
          simp [modalLoop, hv, List.filter_cons,
            modalLoop_eq tl (acc ++ [{ key := formatKey k, value := renderDetailValue v }])]
      | false =>
          simp [modalLoop, hv, List.filter_cons, modalLoop_eq tl acc]

/-- The modal body for an object payload is exactly its truthy entries. -/
theorem showModal_obj_entries (fs : JProps) (mv : ModalView)
    (hs : showModal (Json.obj fs) = some mv) :
    mv.entries = (fs.toList.filter (fun kv => kv.2.truthy)).map
        (fun kv => { key := formatKey kv.1, value := renderDetailValue kv.2 }) := by
  unfold showModal at hs
  simp only [jsEntries] at hs
  cases hs
  exact modalLoop_eq fs.toList []

/-- C6 counterexample: a payload whose value is the empty string — a string
value that does not start with `http`, so the claim says it is rendered as
a plain value — produces no rendered entry at all. -/
theorem showModal_falsy_counterexample :
    showModal (Json.obj (.cons "note" (Json.str "") .nil))
      = some { heading := none, entries := [] }
    ∧ ModalEntry.mk (formatKey "note") (ModalValue.plain (Json.str ""))
        ∉ ({ heading := none, entries := [] } : ModalView).entries :=
  ⟨by decide, by decide⟩

/-- C6 amended: the modal body consists of exactly the payload's truthy
entries, in order; among those, a string value starting with `http` is
rendered as a link to that value and every other truthy value as a plain
value.  Falsy values are omitted entirely. -/
theorem showModal_link_vs_plain (fs : JProps) (mv : ModalView)
    (hs : showModal (Json.obj fs) = some mv) :
    mv.entries = (fs.toList.filter (fun kv => kv.2.truthy)).map
        (fun kv => { key := formatKey kv.1, value := renderDetailValue kv.2 })
    ∧ (∀ s : String, strStartsWith s "http" = true →
        renderDetailValue (.str s) = .link s)
    ∧ (∀ s : String, strStartsWith s "http" = false →
        renderDetailValue (.str s) = .plain (.str s))
    ∧ (∀ v : Json, (∀ s, v ≠ .str s) → renderDetailValue v = .plain v) := by
  refine ⟨showModal_obj_entries fs mv hs, ?_, ?_, ?_⟩
  · intro s hst
    simp [renderDetailValue, hst]
  · intro s hst
    simp [renderDetailValue, hst]
  · intro v hv
    cases v with
    | str s => exact absurd rfl (hv s)
    | null => rfl
    | bool b => rfl
    | num n => rfl
    | arr xs => rfl
    | obj fs2 => rfl

/-- The modal view for the specification's example payload. -/
def modalForLouvre : ModalView :=
  (showModal louvreDetails).getD { heading := none, entries := [] }

/-- Witness for the amended C6 at the example payload: the website field
becomes a link, the cost field a plain value. -/
theorem showModal_link_vs_plain_witness :
    showModal louvreDetails = some modalForLouvre
    ∧ modalForLouvre.entries
        = [{ key := "Cost", value := ModalValue.plain (Json.str "20 EUR") },
           { key := "Website", value := ModalValue.link "http://example.com" }]
    ∧ (modalForLouvre.entries
        = ((JProps.cons "cost" (Json.str "20 EUR")
            (.cons "website" (Json.str "http://example.com") .nil)).toList.filter
              (fun kv => kv.2.truthy)).map
            (fun kv => { key := formatKey kv.1, value := renderDetailValue kv.2 })
       ∧ (∀ s : String, strStartsWith s "http" = true →
            renderDetailValue (.str s) = .link s)
       ∧ (∀ s : String, strStartsWith s "http" = false →
            renderDetailValue (.str s) = .plain (.str s))
       ∧ (∀ v : Json, (∀ s, v ≠ .str s) → renderDetailValue v = .plain v)) :=
  ⟨by decide, by decide,
   showModal_link_vs_plain
     (.cons "cost" (Json.str "20 EUR") (.cons "website" (Json.str "http://example.com") .nil))
     modalForLouvre (by decide)⟩

/-- C10: exactly the truthy entries of a payload are rendered — falsy
values (empty string, zero, false, null) are silently omitted — and an
event with no details payload still renders a Details button whose
attribute retrieves as the empty object, shown as an empty list. -/
theorem showModal_truthy_only (fs : JProps) (mv : ModalView)
    (hs : showModal (Json.obj fs) = some mv) :
    mv.entries = (fs.toList.filter (fun kv => kv.2.truthy)).map
        (fun kv => { key := formatKey kv.1, value := renderDetailValue kv.2 })
    ∧ (∀ kv ∈ fs.toList, kv.2.truthy = false →
        ModalEntry.mk (formatKey kv.1) (renderDetailValue kv.2) ∉ mv.entries
          ∨ ∃ kv2 ∈ fs.toList, kv2.2.truthy = true
              ∧ formatKey kv2.1 = formatKey kv.1 ∧ renderDetailValue kv2.2 = renderDetailValue kv.2)
    ∧ (∀ e : Event, e.details = none →
        retrieveDetails (renderEvent e).detailsAttr = some (Json.obj .nil)
        ∧ showModal (Json.obj .nil) = some { heading := none, entries := [] }) := by
  have hent := showModal_obj_entries fs mv hs
  refine ⟨hent, ?_, ?_⟩
  · intro kv hkv hfalsy
    by_cases hin : ModalEntry.mk (formatKey kv.1) (renderDetailValue kv.2) ∈ mv.entries
    · right
      rw [hent] at hin
      rcases List.mem_map.mp hin with ⟨kv2, hkv2, heq⟩
      rcases List.mem_filter.mp hkv2 with ⟨hkv2m, hkv2t⟩
      refine ⟨kv2, hkv2m, hkv2t, ?_, ?_⟩
      · exact congrArg ModalEntry.key heq
      · exact congrArg ModalEntry.value heq
    · left
      exact hin
  · intro e he
    constructor
    · have hattr : (renderEvent e).detailsAttr = serializeDetails (Json.obj .nil) := by
        simp [renderEvent, detailsOrEmpty, he]
      rw [hattr]
      exact retrieveDetails_serializeDetails (Json.obj .nil) (by decide) (by decide)
    · decide

/-- Witness for C10: the example payload renders both (truthy) entries; the
coordinate-free sample event without details gets an empty-object payload
and an empty modal list. -/
theorem showModal_truthy_only_witness :
    showModal louvreDetails = some modalForLouvre
    ∧ modalForLouvre.entries
        = (((JProps.cons "cost" (Json.str "20 EUR")
            (.cons "website" (Json.str "http://example.com") .nil)).toList.filter
              (fun kv => kv.2.truthy)).map
            (fun kv => { key := formatKey kv.1, value := renderDetailValue kv.2 }))
    ∧ seineWalk.details = none
    ∧ retrieveDetails (renderEvent seineWalk).detailsAttr = some (Json.obj .nil)
    ∧ showModal (Json.obj .nil) = some { heading := none, entries := [] } := by
  have h := showModal_truthy_only
    (.cons "cost" (Json.str "20 EUR") (.cons "website" (Json.str "http://example.com") .nil))
    modalForLouvre (by decide)
  exact ⟨by decide, h.1, rfl, (h.2.2 seineWalk rfl).1, (h.2.2 seineWalk rfl).2⟩

/-! ## C8: the details payload round trip -/

/-- An event whose details carry the text of an HTML character reference. -/
def trickyEvent : Event :=
  { time := "12:00", title := "Tricky", description := "Entity text",
    coords := none, details := some (Json.obj (.cons "a" (Json.str "&amp;") .nil)) }

/-- C8 counterexample: serializing a payload containing the text `&amp;`
into the markup and parsing it back through the attribute yields a
different payload — the browser's attribute decoding turns `&amp;` into
`&` before `JSON.parse` runs. -/
theorem details_roundtrip_counterexample :
    retrieveDetails (renderEvent trickyEvent).detailsAttr
      ≠ some (Json.obj (.cons "a" (Json.str "&amp;") .nil))
    ∧ retrieveDetails (renderEvent trickyEvent).detailsAttr
      = some (Json.obj (.cons "a" (Json.str "&") .nil)) :=
  ⟨by decide, by decide⟩

/-- C8 amended: for every event whose payload's JSON serialization contains
no ampersand, the payload serialized into the markup and parsed back by the
details-button handler is recovered exactly (the script's escaping guards
apostrophes, and the well-formedness of JavaScript objects rules out
duplicate keys). -/
theorem details_roundtrip (e : Event)
    (hwf : (detailsOrEmpty e).wfKeys = true)
    (hamp : '&' ∉ stringifyVal (detailsOrEmpty e)) :
    retrieveDetails (renderEvent e).detailsAttr = some (detailsOrEmpty e) :=
  retrieveDetails_serializeDetails (detailsOrEmpty e) hwf hamp

/-- Witness for the amended C8 at the example event. -/
theorem details_roundtrip_witness :
    (detailsOrEmpty louvre).wfKeys = true
    ∧ '&' ∉ stringifyVal (detailsOrEmpty louvre)
    ∧ retrieveDetails (renderEvent louvre).detailsAttr = some (detailsOrEmpty louvre) :=
  ⟨by decide, by decide, details_roundtrip louvre (by decide) (by decide)⟩
